import Mathlib

/-!
Verification development for the butterfly-diagram aggregation and
image-synthesis pipeline of `seiryo_sunspot_lib`.

The embedding follows `src/seiryo_sunspot_lib/butterfly_merge.py` (present in
the repository) together with the `butterfly` / `butterfly_image` /
`butterfly_config` modules, which are imported by `butterfly_merge.py` and
exercised by `tests/test_butterfly.py` and `tests/test_butterfly_merge.py` but
whose source files are absent; those parts are modelled from the spec and are
marked as such, and validated against the repository's own test fixtures.

Calendar dates are embedded as (year, month, day) triples of naturals with
proleptic-Gregorian day arithmetic; machine integers of the numpy images are
embedded as `Nat` with explicit `% 2^w` where the dtype wraps.
-/

/-- Gregorian leap-year rule, as used by `datetime.date` and polars. -/
def isLeapYear (y : Nat) : Bool :=
  (y % 4 == 0 && y % 100 != 0) || y % 400 == 0

/-- Number of days of month `m` (1..12) in year `y`. -/
def daysInMonth (y : Nat) (m : Nat) : Nat :=
  match m with
  | 1 => 31 | 2 => if isLeapYear y then 29 else 28 | 3 => 31
  | 4 => 30 | 5 => 31 | 6 => 30 | 7 => 31 | 8 => 31
  | 9 => 30 | 10 => 31 | 11 => 30 | 12 => 31
  | _ => 0

/-- Calendar date, the embedding of `datetime.date` / `pl.Date` values. -/
structure Date where
  year : Nat
  month : Nat
  day : Nat
deriving DecidableEq

/-- Lexicographic date order, as `datetime.date` comparison. -/
def Date.le (a b : Date) : Prop :=
  a.year < b.year ∨ (a.year = b.year ∧
    (a.month < b.month ∨ (a.month = b.month ∧ a.day ≤ b.day)))

instance : LE Date := ⟨Date.le⟩

instance instDecLeDate (a b : Date) : Decidable (a ≤ b) :=
  decidable_of_iff (a.year < b.year ∨ (a.year = b.year ∧
    (a.month < b.month ∨ (a.month = b.month ∧ a.day ≤ b.day)))) Iff.rfl

/-- Strict lexicographic date order. -/
def Date.lt (a b : Date) : Prop :=
  a.year < b.year ∨ (a.year = b.year ∧
    (a.month < b.month ∨ (a.month = b.month ∧ a.day < b.day)))

instance : LT Date := ⟨Date.lt⟩

instance instDecLtDate (a b : Date) : Decidable (a < b) :=
  decidable_of_iff (a.year < b.year ∨ (a.year = b.year ∧
    (a.month < b.month ∨ (a.month = b.month ∧ a.day < b.day)))) Iff.rfl

/-- Well-formedness of a date: month in 1..12, day within the month.
`datetime.date` enforces this at construction. -/
def Date.Valid (d : Date) : Prop :=
  1 ≤ d.month ∧ d.month ≤ 12 ∧ 1 ≤ d.day ∧ d.day ≤ daysInMonth d.year d.month

instance (d : Date) : Decidable d.Valid :=
  inferInstanceAs (Decidable (_ ∧ _ ∧ _ ∧ _))

/-- Count of leap years `z` with `0 ≤ z < y` (proleptic Gregorian). -/
def leapsBefore (y : Nat) : Nat :=
  (y + 3) / 4 - (y + 99) / 100 + (y + 399) / 400

/-- Days in years `0, …, y-1`. -/
def daysBeforeYear (y : Nat) : Nat :=
  365 * y + leapsBefore y

/-- Days in the months of a year strictly before month `m`. -/
def daysBeforeMonth (leap : Bool) (m : Nat) : Nat :=
  match m with
  | 1 => 0 | 2 => 31 | 3 => if leap then 60 else 59
  | 4 => if leap then 91 else 90 | 5 => if leap then 121 else 120
  | 6 => if leap then 152 else 151 | 7 => if leap then 182 else 181
  | 8 => if leap then 213 else 212 | 9 => if leap then 244 else 243
  | 10 => if leap then 274 else 273 | 11 => if leap then 305 else 304
  | 12 => if leap then 335 else 334
  | _ => 0

/-- Rata-die style day count of a date; this is the integer a calendar date
is stored as by polars (`pl.Date` is a day count). -/
def Date.toDays (d : Date) : Nat :=
  daysBeforeYear d.year + daysBeforeMonth (isLeapYear d.year) d.month + (d.day - 1)

/-- The calendar day after `d`. -/
def nextDay (d : Date) : Date :=
  if d.day < daysInMonth d.year d.month then ⟨d.year, d.month, d.day + 1⟩
  else if d.month < 12 then ⟨d.year, d.month + 1, 1⟩
  else ⟨d.year + 1, 1, 1⟩

/-- Advance a date by `n` calendar days. -/
def addDays (d : Date) : Nat → Date
  | 0 => d
  | n + 1 => nextDay (addDays d n)

/-- Advance a date by `k` calendar months, clamping the day-of-month to the
target month's length (the `relativedelta` / polars month-offset rule). -/
def addMonthsClamped (d : Date) (k : Nat) : Date :=
  let t := d.year * 12 + (d.month - 1) + k
  ⟨t / 12, t % 12 + 1, min d.day (daysInMonth (t / 12) (t % 12 + 1))⟩

/-- Modelled from the spec: `butterfly.DateDelta` (file `butterfly.py` is
absent from `src/`): a duration as a non-negative (years, months, days)
triple; the constructor rejects the all-zero triple (and negative components,
which `Nat` fields exclude by construction). -/
structure DateDelta where
  years : Nat
  months : Nat
  days : Nat
deriving DecidableEq

/-- A `DateDelta` accepted by the constructor: not all components zero. -/
def DateDelta.Valid (δ : DateDelta) : Prop :=
  ¬(δ.years = 0 ∧ δ.months = 0 ∧ δ.days = 0)

instance (δ : DateDelta) : Decidable δ.Valid :=
  inferInstanceAs (Decidable ¬_)

/-- Total number of whole months of a delta. -/
def DateDelta.monthsTotal (δ : DateDelta) : Nat :=
  12 * δ.years + δ.months

/-- The `k`-th point of the date axis: `date_start + k * interval` (spec §4.3:
column `j` corresponds to `date_start + j * interval`). -/
def dateAt (start : Date) (δ : DateDelta) (k : Nat) : Date :=
  addDays (addMonthsClamped start (k * δ.monthsTotal)) (k * δ.days)

/-- Modelled from the spec: `pl.date_range(start, stop, interval, eager=True)`
as used by `calc_date_size` (src) and `fill_lat` (absent `butterfly.py`):
all points `start + k * interval` lying in the closed range `[start, stop]`.
The generation bound is a day count: each step of a valid interval advances
at least one day. -/
def dateRange (start stop : Date) (δ : DateDelta) : List Date :=
  ((List.range (stop.toDays + 2 - start.toDays)).map (dateAt start δ)).filter
    (fun d => decide (d ≤ stop))

/-- Modelled from the spec: `butterfly.ButterflyInfo` (file `butterfly.py` is
absent from `src/`): the fixed latitude/date grid of one diagram. -/
structure ButterflyInfo where
  latMin : Int
  latMax : Int
  dateStart : Date
  dateEnd : Date
  dateInterval : DateDelta
deriving DecidableEq

/-- A `ButterflyInfo` accepted by the constructor (per
`test_butterfly_info_whith_error`): latitude bounds and date bounds ordered,
with well-formed constituents. -/
def ButterflyInfo.Valid (info : ButterflyInfo) : Prop :=
  info.latMin ≤ info.latMax ∧ info.dateStart ≤ info.dateEnd ∧
    info.dateStart.Valid ∧ info.dateEnd.Valid ∧ info.dateInterval.Valid

instance (info : ButterflyInfo) : Decidable info.Valid :=
  inferInstanceAs (Decidable (_ ∧ _ ∧ _ ∧ _ ∧ _))

/-- Minimum of a nonempty family of integers, as Python `min`. -/
def listMinI (x : Int) (xs : List Int) : Int := xs.foldl min x

/-- Maximum of a nonempty family of integers, as Python `max`. -/
def listMaxI (x : Int) (xs : List Int) : Int := xs.foldl max x

/-- Two-point date minimum under the lexicographic order. -/
def dateMin (a b : Date) : Date := if a ≤ b then a else b

/-- Two-point date maximum under the lexicographic order. -/
def dateMax (a b : Date) : Date := if a ≤ b then b else a

/-- Minimum of a nonempty family of dates, as Python `min`. -/
def listMinD (x : Date) (xs : List Date) : Date := xs.foldl dateMin x

/-- Maximum of a nonempty family of dates, as Python `max`. -/
def listMaxD (x : Date) (xs : List Date) : Date := xs.foldl dateMax x

/-- Embedding of `butterfly_merge.merge_info`: requires one single distinct
date interval among the inputs (else `ValueError("Date interval must be
equal")`), then takes componentwise bounds.  The second error branch is
unreachable: the cardinality check already rejects the empty list. -/
def merge_info (l : List ButterflyInfo) : Except String ButterflyInfo :=
  if (l.map (·.dateInterval)).dedup.length ≠ 1 then
    .error "Date interval must be equal"
  else
    match l with
    | [] => .error "list index out of range"
    | i :: rest =>
      .ok ⟨listMinI i.latMin (rest.map (·.latMin)),
           listMaxI i.latMax (rest.map (·.latMax)),
           listMinD i.dateStart (rest.map (·.dateStart)),
           listMaxD i.dateEnd (rest.map (·.dateEnd)),
           i.dateInterval⟩

/-- Embedding of `butterfly_merge.calc_lat_size`:
`(lat_max - lat_min) * 2 + 1` (a Python int, hence `Int` here). -/
def calc_lat_size (info : ButterflyInfo) : Int :=
  (info.latMax - info.latMin) * 2 + 1

/-- The latitude axis length as an array dimension (`np.zeros` dimension). -/
def latSizeNat (info : ButterflyInfo) : Nat :=
  (calc_lat_size info).toNat

/-- Embedding of `butterfly_merge.calc_date_size`:
`pl.date_range(date_start, date_end, interval, eager=True).len()`. -/
def calc_date_size (info : ButterflyInfo) : Nat :=
  (dateRange info.dateStart info.dateEnd info.dateInterval).length

/-- One row of a raw observation table: `(date, lat_min, lat_max)`. -/
structure ObsRow where
  date : Date
  lat_min : Int
  lat_max : Int
deriving DecidableEq

/-- One row of an aggregated or filled table: a period start and the paired
`min` / `max` latitude lists. -/
structure AggRow where
  date : Date
  min : List Int
  max : List Int
deriving DecidableEq

/-- Modelled from the spec: `butterfly.fill_lat` (file `butterfly.py` is
absent from `src/`): complete period sequence from `start` to `stop`, a
period absent from the input getting empty lists, sorted by period start.
`tests/test_butterfly.py::test_fill_lat` (second fixture) shows input rows
whose period is outside `[start, stop]` are dropped, i.e. the join runs from
the generated period frame. -/
def fill_lat (df : List AggRow) (start stop : Date) (δ : DateDelta) :
    List AggRow :=
  (dateRange start stop δ).map (fun p =>
    match df.find? (fun r => decide (r.date = p)) with
    | some r => r
    | none => ⟨p, [], []⟩)

/-- Modelled from the spec: flooring of an observation date to its containing
period start (`pl.col("date").dt.truncate(interval)`), for the single-unit
intervals the repository uses: a whole-month interval buckets the month index
relative to the 1970-01 epoch and yields the bucket's first day; a one-day
interval is the identity on whole-day dates.  Other interval shapes are out
of the modelled scope and left untouched (theorems guard them away). -/
def truncateDate (δ : DateDelta) (d : Date) : Date :=
  if δ.monthsTotal ≠ 0 ∧ δ.days = 0 then
    let M : Int := δ.monthsTotal
    let ym : Int := (d.year : Int) * 12 + ((d.month : Int) - 1)
    let e : Int := 1970 * 12
    let b : Int := ((ym - e).fdiv M) * M + e
    ⟨b.toNat / 12, b.toNat % 12 + 1, 1⟩
  else d

/-- Modelled from the spec: `butterfly.agg_lat` (file `butterfly.py` is
absent from `src/`): floor each row's date to its period, group rows by
period, collecting the `lat_min` and `lat_max` values positionally into two
lists (`tests/test_butterfly.py::test_agg_lat`). -/
def agg_lat (df : List ObsRow) (δ : DateDelta) : List AggRow :=
  ((df.map (fun r => truncateDate δ r.date)).dedup).map (fun k =>
    ⟨k, (df.filter (fun r => decide (truncateDate δ r.date = k))).map (·.lat_min),
        (df.filter (fun r => decide (truncateDate δ r.date = k))).map (·.lat_max)⟩)

/-- Modelled from the spec: `butterfly.calc_lat` (file `butterfly.py` is
absent from `src/`), the convenience aggregate-and-fill entry point.  The
spec's words say raw rows are first clipped to `[date_start, date_end]`, but
`tests/test_butterfly.py::test_calc_lat` shows the observation dated
2020-03-03 — outside the fixture's range ending 2020-03-01 — contributing to
the 2020-03-01 period, so no raw-date clipping can happen; rows are
aggregated (dates floored to periods) and the fill join then drops
out-of-range periods. -/
def calc_lat (df : List ObsRow) (info : ButterflyInfo) : List AggRow :=
  fill_lat (agg_lat df info.dateInterval) info.dateStart info.dateEnd
    info.dateInterval

/-- A 2-D unsigned-integer numpy array, stored row-major. -/
structure NpImg where
  rows : Nat
  cols : Nat
  data : List Nat
deriving DecidableEq

/-- Pixel access `img[i][j]` (row-major). -/
def NpImg.px (img : NpImg) (i j : Nat) : Nat :=
  img.data.getD (i * img.cols + j) 0

/-- The zero image `np.zeros((r, c))`. -/
def zerosImg (r c : Nat) : NpImg :=
  ⟨r, c, List.replicate (r * c) 0⟩

/-- Whether a sighting pair of row `row` covers image row `r`: the sighting
`(lo, hi)` occupies the contiguous row slice
`2*(lat_max - hi) … 2*(lat_max - lo)` of its column. -/
def rowCovered (info : ButterflyInfo) (r : Nat) (row : AggRow) : Bool :=
  (row.min.zip row.max).any (fun p =>
    decide (2 * (info.latMax - p.2) ≤ (r : Int)) &&
      decide ((r : Int) ≤ 2 * (info.latMax - p.1)))

/-- Modelled from the spec: `butterfly_image.create_image` (file
`butterfly_image.py` is absent from `src/`): rasterizes a filled table to the
single-source occupancy bitmap of shape `(lat_size, table height)`, 8-bit
per the spec's smallest-sufficient-dtype rule and the `np.uint8` image type
of `butterfly_draw.draw_butterfly_diagram`.  Each sighting `(lo, hi)` sets
the contiguous row slice `2*(lat_max - hi) … 2*(lat_max - lo)` of its
period's column to 1; this slice form (rather than the spec's
data-rows-only increment) is forced by the expected fixtures of
`tests/test_butterfly_merge.py::test_create_merged_image`, which this
definition reproduces (see the validation theorems below).  Out-of-range
slice bounds clip at the image edge. -/
def create_image (df : List AggRow) (info : ButterflyInfo) : NpImg :=
  ⟨latSizeNat info, df.length,
    (List.range (latSizeNat info)).flatMap (fun r =>
      df.map (fun row => if rowCovered info r row then 1 else 0))⟩

/-- The numpy expression `(bitmap << i).astype(np.uint16)` of
`create_merged_image`: the shift happens in the bitmap's own 8-bit dtype,
wrapping modulo 2^8, and only then widens. -/
def shiftLeftU8 (img : NpImg) (i : Nat) : NpImg :=
  ⟨img.rows, img.cols, img.data.map (fun v => v * 2 ^ i % 256)⟩

/-- Numpy dimension broadcasting: equal dimensions, or a 1 stretched. -/
def bcastDim (m n : Nat) : Option Nat :=
  if m = n then some m
  else if m = 1 then some n
  else if n = 1 then some m
  else none

/-- Numpy addition of two 2-D `uint16` arrays: pointwise sum modulo 2^16
after broadcasting; `none` models the `ValueError` raised when the shapes
do not broadcast. -/
def npAdd (a b : NpImg) : Option NpImg :=
  match bcastDim a.rows b.rows, bcastDim a.cols b.cols with
  | some r, some c =>
    some ⟨r, c,
      (List.range r).flatMap (fun i => (List.range c).map (fun j =>
        (a.px (if a.rows = 1 then 0 else i) (if a.cols = 1 then 0 else j) +
          b.px (if b.rows = 1 then 0 else i) (if b.cols = 1 then 0 else j))
          % 65536))⟩
  | _, _ => none

/-- Embedding of `butterfly_merge.create_merged_image`: a `uint16` zero image
of shape `(calc_lat_size, calc_date_size)` accumulates, for each source `i`,
the filled-and-rasterized bitmap shifted left by `i` (in the bitmap's 8-bit
dtype) and widened; `none` models a numpy broadcast `ValueError`. -/
def create_merged_image (dfl : List (List AggRow)) (info : ButterflyInfo) :
    Option NpImg :=
  (dfl.enum).foldl
    (fun acc p => acc.bind (fun a =>
      npAdd a (shiftLeftU8
        (create_image
          (fill_lat p.2 info.dateStart info.dateEnd info.dateInterval) info)
        p.1)))
    (some (zerosImg (latSizeNat info) (calc_date_size info)))

/-- Modelled from the spec: `butterfly_config.Color` (file
`butterfly_config.py` is absent from `src/`): one RGB byte triple. -/
structure Color where
  red : Nat
  green : Nat
  blue : Nat
deriving DecidableEq

/-- Modelled from the spec: `butterfly_config.ColorMap`: the ordered color
table; index 0 maps to composite value 1. -/
structure ColorMap where
  cmap : List Color
deriving DecidableEq

/-- A 2-D RGB numpy array, stored row-major, one `(r, g, b)` triple per
pixel. -/
structure RgbImg where
  rows : Nat
  cols : Nat
  data : List (Nat × Nat × Nat)
deriving DecidableEq

/-- RGB pixel access. -/
def RgbImg.px (img : RgbImg) (i j : Nat) : Nat × Nat × Nat :=
  img.data.getD (i * img.cols + j) (0, 0, 0)

/-- Embedding of `butterfly_merge.create_color_image`: start from the
all-white image `np.full((*img.shape, 3), 0xFF)` and, for `i` running
1-based over the color table, recolor every pixel whose composite value
equals `i` with `cmap[i-1]`. -/
def create_color_image (img : NpImg) (cmap : ColorMap) : RgbImg :=
  (cmap.cmap.enum).foldl
    (fun acc p =>
      ⟨acc.rows, acc.cols,
        List.zipWith
          (fun q v => if v = p.1 + 1 then (p.2.red, p.2.green, p.2.blue) else q)
          acc.data img.data⟩)
    ⟨img.rows, img.cols, List.replicate (img.rows * img.cols) (255, 255, 255)⟩

/-- The rasterizer exactly as claim C2 words it (for comparison with
`create_image`): the data row of latitude degree `d` is `2*(lat_max - d)`;
each sighting pair `(lo, hi)` increments each whole-degree data row for
degrees `lo … hi` by 1 in its period's column; every odd row index is an
always-zero separator row. -/
def claimRasterize (df : List AggRow) (info : ButterflyInfo) : NpImg :=
  ⟨latSizeNat info, df.length,
    (List.range (latSizeNat info)).flatMap (fun r =>
      df.map (fun row =>
        if r % 2 = 1 then 0
        else
          ((row.min.zip row.max).filter (fun p =>
            decide (p.1 ≤ info.latMax - (r / 2 : Nat)) &&
              decide ((info.latMax - (r / 2 : Nat) : Int) ≤ p.2))).length))⟩

/-- The month index of a date: whole months since year 0. -/
def ymIdx (d : Date) : Nat := d.year * 12 + (d.month - 1)

/-- RGB triple of a color table entry. -/
def rgbOf (c : Color) : Nat × Nat × Nat := (c.red, c.green, c.blue)

/-- Decimal digit character for `d` in 0..9. -/
def dChar (d : Nat) : Char := Char.ofNat (48 + d)

/-- Decimal digit characters of `n`, most significant first (empty for 0). -/
def digitChars (n : Nat) : List Char := ((Nat.digits 10 n).map dChar).reverse

/-- Left-pad with `'0'` to width `w`. -/
def padZeros (w : Nat) (s : List Char) : List Char :=
  List.replicate (w - s.length) '0' ++ s

/-- Numeric value of a digit character. -/
def charVal (c : Char) : Nat := c.toNat - 48

/-- Parse a decimal digit string (assumed all digits). -/
def parseNatChars (s : List Char) : Nat :=
  s.foldl (fun a c => 10 * a + charVal c) 0

/-- ISO date text `YYYY-MM-DD` of a date, as `datetime.date.isoformat`. -/
def dateIso (d : Date) : List Char :=
  padZeros 4 (digitChars d.year) ++
    '-' :: (padZeros 2 (digitChars d.month) ++ '-' :: padZeros 2 (digitChars d.day))

/-- Modelled from the spec: `DateDelta.isoformat` (absent `butterfly.py`):
ISO-8601 duration text, omitting zero components (`P1M`, `P1Y2M3D`,
`P12Y3D` per `test_date_delta` / `test_date_delta_fromisoformat`). -/
def deltaIso (δ : DateDelta) : List Char :=
  'P' :: ((if δ.years = 0 then [] else digitChars δ.years ++ ['Y']) ++
    ((if δ.months = 0 then [] else digitChars δ.months ++ ['M']) ++
      (if δ.days = 0 then [] else digitChars δ.days ++ ['D'])))

/-- Split a character list on `'-'` separators. -/
def splitDash : List Char → List (List Char)
  | [] => [[]]
  | c :: t =>
    if c = '-' then [] :: splitDash t
    else
      match splitDash t with
      | [] => [[c]]
      | h :: r => (c :: h) :: r

/-- Modelled from the spec: `datetime.date.fromisoformat` as used by
`ButterflyInfo.from_dict`: accepts exactly `YYYY-MM-DD` digit text denoting
a calendar-valid date. -/
def parseDateIso (s : List Char) : Option Date :=
  match splitDash s with
  | [ys, ms, ds] =>
    if ys.length = 4 ∧ ms.length = 2 ∧ ds.length = 2 ∧
        (ys ++ ms ++ ds).all Char.isDigit = true ∧
        (Date.mk (parseNatChars ys) (parseNatChars ms)
          (parseNatChars ds)).Valid then
      some ⟨parseNatChars ys, parseNatChars ms, parseNatChars ds⟩
    else none
  | _ => none

/-- One optional `<digits><marker>` component of an ISO duration: returns
the parsed value and the remaining input, or leaves the input unchanged. -/
def parseComp (marker : Char) (s : List Char) : Option Nat × List Char :=
  match s.dropWhile Char.isDigit with
  | c :: r =>
    if c = marker ∧ s.takeWhile Char.isDigit ≠ [] then
      (some (parseNatChars (s.takeWhile Char.isDigit)), r)
    else (none, s)
  | [] => (none, s)

/-- Modelled from the spec: `DateDelta.fromisoformat` (absent
`butterfly.py`): `P` followed by optional `nY`, `nM`, `nD` components, at
least one present; the constructor then rejects the all-zero duration. -/
def parseDeltaIso (s : List Char) : Option DateDelta :=
  match s with
  | [] => none
  | c :: rest =>
    if c = 'P' then
      let py := parseComp 'Y' rest
      let pm := parseComp 'M' py.2
      let pd := parseComp 'D' pm.2
      if pd.2 = [] ∧ (py.1.isSome ∨ pm.1.isSome ∨ pd.1.isSome) ∧
          ¬(py.1.getD 0 = 0 ∧ pm.1.getD 0 = 0 ∧ pd.1.getD 0 = 0) then
        some ⟨py.1.getD 0, pm.1.getD 0, pd.1.getD 0⟩
      else none
    else none

/-- A Python value as stored in a `ButterflyInfo` dict: `to_dict` stores raw
`date` / `DateDelta` objects while `from_dict` expects ISO text
(`test_butterfly_info` versus `test_butterfly_info_from_dict`). -/
inductive PyVal where
  | int (n : Int)
  | str (s : List Char)
  | date (d : Date)
  | delta (δ : DateDelta)
deriving DecidableEq

/-- The persisted dict of a `ButterflyInfo`. -/
structure ButterflyInfoDict where
  lat_min : PyVal
  lat_max : PyVal
  date_start : PyVal
  date_end : PyVal
  date_interval : PyVal
deriving DecidableEq

/-- Modelled from the spec: `ButterflyInfo.to_dict` (absent `butterfly.py`):
per `test_butterfly_info` it returns the raw attribute values — the dates as
`date` objects and the interval as a `DateDelta` object, not ISO text (the
textual form is what `to_json` writes). -/
def ButterflyInfo.to_dict (info : ButterflyInfo) : ButterflyInfoDict :=
  ⟨.int info.latMin, .int info.latMax, .date info.dateStart,
   .date info.dateEnd, .delta info.dateInterval⟩

/-- Modelled from the spec: `ButterflyInfo.from_dict` (absent
`butterfly.py`): per `test_butterfly_info_from_dict` it parses ISO text for
the dates and the interval (a non-string raises a `TypeError`, modelled as
`none`) and then runs the constructor's order validation. -/
def ButterflyInfo.from_dict (d : ButterflyInfoDict) : Option ButterflyInfo :=
  match d.lat_min, d.lat_max, d.date_start, d.date_end, d.date_interval with
  | .int lo, .int hi, .str ss, .str se, .str si =>
    match parseDateIso ss, parseDateIso se, parseDeltaIso si with
    | some ds, some de, some δ =>
      if lo ≤ hi ∧ ds ≤ de then some ⟨lo, hi, ds, de, δ⟩ else none
    | _, _, _ => none
  | _, _, _, _, _ => none

theorem date_le_def (a b : Date) : a ≤ b ↔
    (a.year < b.year ∨ (a.year = b.year ∧
      (a.month < b.month ∨ (a.month = b.month ∧ a.day ≤ b.day)))) :=
  Iff.rfl

theorem date_lt_def (a b : Date) : a < b ↔
    (a.year < b.year ∨ (a.year = b.year ∧
      (a.month < b.month ∨ (a.month = b.month ∧ a.day < b.day)))) :=
  Iff.rfl

theorem date_le_refl (a : Date) : a ≤ a := by
  simp [date_le_def]

theorem date_le_trans {a b c : Date} (h1 : a ≤ b) (h2 : b ≤ c) : a ≤ c := by
  simp only [date_le_def] at h1 h2 ⊢
  omega

theorem date_le_antisymm {a b : Date} (h1 : a ≤ b) (h2 : b ≤ a) : a = b := by
  cases a
  cases b
  simp only [date_le_def] at h1 h2
  simp only [Date.mk.injEq]
  omega

theorem date_le_total (a b : Date) : a ≤ b ∨ b ≤ a := by
  simp only [date_le_def]
  omega

theorem date_le_iff_not_lt {a b : Date} : a ≤ b ↔ ¬b < a := by
  simp only [date_le_def, date_lt_def]
  omega

theorem date_lt_iff_le_ne {a b : Date} : a < b ↔ a ≤ b ∧ a ≠ b := by
  cases a
  cases b
  simp only [date_le_def, date_lt_def, ne_eq, Date.mk.injEq]
  omega

theorem isLeapYear_iff (y : Nat) :
    isLeapYear y = true ↔ ((y % 4 = 0 ∧ y % 100 ≠ 0) ∨ y % 400 = 0) := by
  simp [isLeapYear]

theorem leapsBefore_succ (y : Nat) :
    leapsBefore (y + 1) = leapsBefore y + (if isLeapYear y then 1 else 0) := by
  by_cases h : ((y % 4 = 0 ∧ y % 100 ≠ 0) ∨ y % 400 = 0)
  · rw [if_pos ((isLeapYear_iff y).mpr h)]
    simp only [leapsBefore]
    omega
  · rw [if_neg (fun hh => h ((isLeapYear_iff y).mp hh))]
    simp only [leapsBefore]
    omega

theorem daysBeforeYear_succ (y : Nat) :
    daysBeforeYear (y + 1) =
      daysBeforeYear y + 365 + (if isLeapYear y then 1 else 0) := by
  have h := leapsBefore_succ y
  simp only [daysBeforeYear]
  omega

theorem one_le_daysInMonth {y m : Nat} (h1 : 1 ≤ m) (h2 : m ≤ 12) :
    1 ≤ daysInMonth y m := by
  interval_cases m <;> cases h : isLeapYear y <;> simp [daysInMonth, h]

theorem daysInMonth_le_31 {y m : Nat} : daysInMonth y m ≤ 31 := by
  unfold daysInMonth
  split <;> first
    | omega
    | (cases h : isLeapYear y <;> simp [h])

theorem daysBeforeMonth_step {y m : Nat} (h1 : 1 ≤ m) (h2 : m ≤ 11) :
    daysBeforeMonth (isLeapYear y) (m + 1) =
      daysBeforeMonth (isLeapYear y) m + daysInMonth y m := by
  interval_cases m <;> cases h : isLeapYear y <;>
    simp [daysBeforeMonth, daysInMonth, h]

theorem daysBeforeMonth_12_add (y : Nat) :
    daysBeforeMonth (isLeapYear y) 12 + 31 =
      365 + (if isLeapYear y then 1 else 0) := by
  cases h : isLeapYear y <;> simp [daysBeforeMonth, h]

theorem toDays_mk (y m dd : Nat) :
    (Date.mk y m dd).toDays =
      daysBeforeYear y + daysBeforeMonth (isLeapYear y) m + (dd - 1) :=
  rfl

theorem date_valid_mk {y m dd : Nat} :
    (Date.mk y m dd).Valid ↔
      (1 ≤ m ∧ m ≤ 12 ∧ 1 ≤ dd ∧ dd ≤ daysInMonth y m) :=
  Iff.rfl

theorem toDays_nextDay {d : Date} (h : d.Valid) :
    (nextDay d).toDays = d.toDays + 1 := by
  obtain ⟨h1, h2, h3, h4⟩ := h
  unfold nextDay
  split
  · simp only [toDays_mk, Date.toDays]
    omega
  · split
    · rename_i hlt hm
      have hstep := daysBeforeMonth_step (y := d.year) (m := d.month) h1
        (by omega)
      simp only [toDays_mk, Date.toDays]
      omega
    · rename_i hlt hm
      have hm12 : d.month = 12 := by omega
      have hdim : daysInMonth d.year d.month = 31 := by
        rw [hm12]
        simp [daysInMonth]
      have hsucc := daysBeforeYear_succ d.year
      have h12 := daysBeforeMonth_12_add d.year
      have hdbm1 : daysBeforeMonth (isLeapYear (d.year + 1)) 1 = 0 := rfl
      simp only [toDays_mk, Date.toDays, hm12, hdbm1]
      omega

theorem nextDay_valid {d : Date} (h : d.Valid) : (nextDay d).Valid := by
  obtain ⟨h1, h2, h3, h4⟩ := h
  unfold nextDay
  split
  · rw [date_valid_mk]
    omega
  · split
    · rename_i hlt hm
      rw [date_valid_mk]
      refine ⟨by omega, by omega, by omega, ?_⟩
      exact one_le_daysInMonth (by omega) (by omega)
    · rw [date_valid_mk]
      refine ⟨by omega, by omega, by omega, ?_⟩
      simp [daysInMonth]

theorem addDays_valid {d : Date} (h : d.Valid) (n : Nat) :
    (addDays d n).Valid := by
  induction n with
  | zero => exact h
  | succ n ih => exact nextDay_valid ih

theorem toDays_addDays {d : Date} (h : d.Valid) (n : Nat) :
    (addDays d n).toDays = d.toDays + n := by
  induction n with
  | zero => rfl
  | succ n ih =>
    have := toDays_nextDay (addDays_valid h n)
    simp only [addDays]
    omega

theorem date_year_mk (y m dd : Nat) : (Date.mk y m dd).year = y := rfl

theorem date_month_mk (y m dd : Nat) : (Date.mk y m dd).month = m := rfl

theorem date_day_mk (y m dd : Nat) : (Date.mk y m dd).day = dd := rfl

theorem daysBeforeMonth_one (l : Bool) : daysBeforeMonth l 1 = 0 := rfl

theorem ymIdx_addMonthsClamped (d : Date) (k : Nat) :
    ymIdx (addMonthsClamped d k) = ymIdx d + k := by
  simp only [ymIdx, addMonthsClamped, date_year_mk, date_month_mk]
  omega

theorem addMonthsClamped_valid {d : Date} (h : d.Valid) (k : Nat) :
    (addMonthsClamped d k).Valid := by
  obtain ⟨h1, h2, h3, h4⟩ := h
  simp only [addMonthsClamped, date_valid_mk]
  refine ⟨by omega, by omega, ?_, Nat.min_le_right _ _⟩
  have hdim : 1 ≤ daysInMonth ((d.year * 12 + (d.month - 1) + k) / 12)
      ((d.year * 12 + (d.month - 1) + k) % 12 + 1) :=
    one_le_daysInMonth (by omega) (by omega)
  omega

theorem addMonthsClamped_zero {d : Date} (h : d.Valid) :
    addMonthsClamped d 0 = d := by
  cases d with
  | mk y m dd =>
    rw [date_valid_mk] at h
    obtain ⟨h1, h2, h3, h4⟩ := h
    have e1 : (y * 12 + (m - 1) + 0) / 12 = y := by omega
    have e2 : (y * 12 + (m - 1) + 0) % 12 + 1 = m := by omega
    simp only [addMonthsClamped, date_year_mk, date_month_mk, date_day_mk,
      e1, e2]
    rw [Nat.min_eq_left h4]

theorem toDays_monthStart_succ (t : Nat) :
    (Date.mk ((t + 1) / 12) ((t + 1) % 12 + 1) 1).toDays =
      (Date.mk (t / 12) (t % 12 + 1) 1).toDays +
        daysInMonth (t / 12) (t % 12 + 1) := by
  by_cases h : t % 12 = 11
  · have e1 : (t + 1) / 12 = t / 12 + 1 := by omega
    have e2 : (t + 1) % 12 + 1 = 1 := by omega
    have e3 : t % 12 + 1 = 12 := by omega
    have hsucc := daysBeforeYear_succ (t / 12)
    have h12a := daysBeforeMonth_12_add (t / 12)
    have hdim : daysInMonth (t / 12) 12 = 31 := by simp [daysInMonth]
    rw [e1, e2, e3]
    simp only [toDays_mk, daysBeforeMonth_one, hdim]
    omega
  · have e1 : (t + 1) / 12 = t / 12 := by omega
    have e2 : (t + 1) % 12 + 1 = t % 12 + 1 + 1 := by omega
    have hstep := daysBeforeMonth_step (y := t / 12) (m := t % 12 + 1)
      (by omega) (by omega)
    rw [e1, e2]
    simp only [toDays_mk]
    omega

theorem toDays_monthStart_mono {t t' : Nat} (h : t ≤ t') :
    (Date.mk (t / 12) (t % 12 + 1) 1).toDays ≤
      (Date.mk (t' / 12) (t' % 12 + 1) 1).toDays := by
  induction t' with
  | zero =>
    have : t = 0 := by omega
    rw [this]
  | succ n ih =>
    by_cases ht : t ≤ n
    · have := toDays_monthStart_succ n
      have := ih ht
      omega
    · have : t = n + 1 := by omega
      rw [this]

theorem monthStart_le_toDays {a : Date} (ha : a.Valid) :
    (Date.mk (ymIdx a / 12) (ymIdx a % 12 + 1) 1).toDays ≤ a.toDays := by
  obtain ⟨h1, h2, h3, h4⟩ := ha
  have e1 : ymIdx a / 12 = a.year := by simp only [ymIdx]; omega
  have e2 : ymIdx a % 12 + 1 = a.month := by simp only [ymIdx]; omega
  rw [e1, e2]
  simp only [toDays_mk, Date.toDays]
  omega

theorem toDays_lt_nextMonthStart {a : Date} (ha : a.Valid) :
    a.toDays < (Date.mk ((ymIdx a + 1) / 12) ((ymIdx a + 1) % 12 + 1) 1).toDays := by
  obtain ⟨h1, h2, h3, h4⟩ := ha
  have e1 : ymIdx a / 12 = a.year := by simp only [ymIdx]; omega
  have e2 : ymIdx a % 12 + 1 = a.month := by simp only [ymIdx]; omega
  have hsucc := toDays_monthStart_succ (ymIdx a)
  rw [e1, e2] at hsucc
  simp only [toDays_mk, Date.toDays] at *
  omega

theorem toDays_lt_of_ymIdx_lt {a b : Date} (ha : a.Valid) (hb : b.Valid)
    (h : ymIdx a < ymIdx b) : a.toDays < b.toDays := by
  have h1 := toDays_lt_nextMonthStart ha
  have h2 := @toDays_monthStart_mono (ymIdx a + 1) (ymIdx b) (by omega)
  have h3 := monthStart_le_toDays hb
  omega

theorem dateAt_valid {start : Date} (hs : start.Valid) (δ : DateDelta)
    (k : Nat) : (dateAt start δ k).Valid :=
  addDays_valid (addMonthsClamped_valid hs _) _

theorem dateAt_zero {start : Date} (hs : start.Valid) (δ : DateDelta) :
    dateAt start δ 0 = start := by
  simp only [dateAt, Nat.zero_mul]
  rw [addMonthsClamped_zero hs]
  rfl

theorem toDays_dateAt_succ_lt {start : Date} (hs : start.Valid)
    {δ : DateDelta} (hδ : δ.Valid) (k : Nat) :
    (dateAt start δ k).toDays < (dateAt start δ (k + 1)).toDays := by
  by_cases hM : δ.monthsTotal = 0
  · have hd : δ.days ≠ 0 := by
      simp only [DateDelta.Valid] at hδ
      simp only [DateDelta.monthsTotal] at hM
      omega
    simp only [dateAt, hM, Nat.mul_zero]
    rw [toDays_addDays (addMonthsClamped_valid hs 0),
      toDays_addDays (addMonthsClamped_valid hs 0)]
    have hk : k * δ.days < (k + 1) * δ.days :=
      (Nat.mul_lt_mul_right (by omega)).mpr (Nat.lt_succ_self k)
    omega
  · have hA := addMonthsClamped_valid hs (k * δ.monthsTotal)
    have hB := addMonthsClamped_valid hs ((k + 1) * δ.monthsTotal)
    have hym : ymIdx (addMonthsClamped start (k * δ.monthsTotal)) <
        ymIdx (addMonthsClamped start ((k + 1) * δ.monthsTotal)) := by
      rw [ymIdx_addMonthsClamped, ymIdx_addMonthsClamped]
      have : k * δ.monthsTotal < (k + 1) * δ.monthsTotal :=
        (Nat.mul_lt_mul_right (by omega)).mpr (Nat.lt_succ_self k)
      omega
    have hAB := toDays_lt_of_ymIdx_lt hA hB hym
    simp only [dateAt]
    rw [toDays_addDays hA, toDays_addDays hB]
    have : k * δ.days ≤ (k + 1) * δ.days :=
      Nat.mul_le_mul_right _ (by omega)
    omega

theorem toDays_dateAt_ge {start : Date} (hs : start.Valid) {δ : DateDelta}
    (hδ : δ.Valid) (k : Nat) :
    start.toDays + k ≤ (dateAt start δ k).toDays := by
  induction k with
  | zero =>
    rw [dateAt_zero hs]
    omega
  | succ n ih =>
    have := toDays_dateAt_succ_lt hs hδ n
    omega

theorem toDays_dateAt_lt_of_lt {start : Date} (hs : start.Valid)
    {δ : DateDelta} (hδ : δ.Valid) {k k' : Nat} (h : k < k') :
    (dateAt start δ k).toDays < (dateAt start δ k').toDays := by
  induction k' with
  | zero => omega
  | succ n ih =>
    have hstep := toDays_dateAt_succ_lt hs hδ n
    by_cases hk : k < n
    · have := ih hk
      omega
    · have : k = n := by omega
      rw [this]
      exact hstep

theorem toDays_lt_of_date_lt {a b : Date} (ha : a.Valid) (hb : b.Valid)
    (h : a < b) : a.toDays < b.toDays := by
  obtain ⟨ha1, ha2, ha3, ha4⟩ := ha
  obtain ⟨hb1, hb2, hb3, hb4⟩ := hb
  rcases (date_lt_def a b).mp h with hy | ⟨hy, hm | ⟨hm, hd⟩⟩
  · exact toDays_lt_of_ymIdx_lt ⟨ha1, ha2, ha3, ha4⟩ ⟨hb1, hb2, hb3, hb4⟩
      (by simp only [ymIdx]; omega)
  · exact toDays_lt_of_ymIdx_lt ⟨ha1, ha2, ha3, ha4⟩ ⟨hb1, hb2, hb3, hb4⟩
      (by simp only [ymIdx]; omega)
  · simp only [Date.toDays, hy, hm]
    omega

theorem date_lt_iff_toDays_lt {a b : Date} (ha : a.Valid) (hb : b.Valid) :
    a < b ↔ a.toDays < b.toDays := by
  constructor
  · exact toDays_lt_of_date_lt ha hb
  · intro h
    by_contra hc
    have hba : b ≤ a := date_le_iff_not_lt.mpr hc
    rcases eq_or_ne b a with he | hne
    · rw [he] at h
      omega
    · have := toDays_lt_of_date_lt hb ha (date_lt_iff_le_ne.mpr ⟨hba, hne⟩)
      omega

theorem date_le_iff_toDays_le {a b : Date} (ha : a.Valid) (hb : b.Valid) :
    a ≤ b ↔ a.toDays ≤ b.toDays := by
  rw [date_le_iff_not_lt, date_lt_iff_toDays_lt hb ha]
  omega

theorem mem_dateRange_iff {start stop : Date} (hs : start.Valid)
    (hst : stop.Valid) {δ : DateDelta} (hδ : δ.Valid) {d : Date} :
    d ∈ dateRange start stop δ ↔ (∃ k, dateAt start δ k = d) ∧ d ≤ stop := by
  unfold dateRange
  rw [List.mem_filter]
  simp only [List.mem_map, List.mem_range, decide_eq_true_eq]
  constructor
  · rintro ⟨⟨k, hk, rfl⟩, hle⟩
    exact ⟨⟨k, rfl⟩, hle⟩
  · rintro ⟨⟨k, rfl⟩, hle⟩
    refine ⟨⟨k, ?_, rfl⟩, hle⟩
    have h1 := toDays_dateAt_ge hs hδ k
    have h2 : (dateAt start δ k).toDays ≤ stop.toDays :=
      (date_le_iff_toDays_le (dateAt_valid hs δ k) hst).mp hle
    omega

theorem dateRange_pairwise_lt {start stop : Date} (hs : start.Valid)
    {δ : DateDelta} (hδ : δ.Valid) :
    (dateRange start stop δ).Pairwise (· < ·) := by
  unfold dateRange
  apply List.Pairwise.sublist (List.filter_sublist _)
  rw [List.pairwise_map]
  apply List.Pairwise.imp ?_ (List.pairwise_lt_range _)
  intro a b hab
  exact (date_lt_iff_toDays_lt (dateAt_valid hs δ a) (dateAt_valid hs δ b)).mpr
    (toDays_dateAt_lt_of_lt hs hδ hab)

theorem dateRange_nodup {start stop : Date} (hs : start.Valid)
    {δ : DateDelta} (hδ : δ.Valid) : (dateRange start stop δ).Nodup := by
  apply List.Pairwise.imp ?_ (@dateRange_pairwise_lt start stop hs δ hδ)
  intro a b hab
  exact (date_lt_iff_le_ne.mp hab).2

theorem fill_lat_dates (df : List AggRow) (s e : Date) (δ : DateDelta) :
    (fill_lat df s e δ).map (fun r => r.date) = dateRange s e δ := by
  unfold fill_lat
  rw [List.map_map]
  have : ∀ p ∈ dateRange s e δ,
      ((fun r => r.date) ∘ fun p =>
        (match df.find? (fun r => decide (r.date = p)) with
          | some r => r
          | none => ⟨p, [], []⟩ : AggRow)) p = id p := by
    intro p _
    simp only [Function.comp, id]
    cases hf : df.find? (fun r => decide (r.date = p)) with
    | none => rfl
    | some r =>
      have := List.find?_some hf
      simp only [decide_eq_true_eq] at this
      exact this
  rw [List.map_congr_left this, List.map_id]

theorem foldl_pick_mem {α : Type} (f : α → α → α)
    (hf : ∀ a b, f a b = a ∨ f a b = b) :
    ∀ (xs : List α) (x : α), xs.foldl f x ∈ x :: xs := by
  intro xs
  induction xs with
  | nil =>
    intro x
    exact List.mem_singleton_self x
  | cons y ys ih =>
    intro x
    simp only [List.foldl_cons]
    have h := ih (f x y)
    rw [List.mem_cons] at h
    rcases h with h | h
    · rw [h]
      rcases hf x y with he | he <;> rw [he]
      · exact List.mem_cons_self _ _
      · exact List.mem_cons_of_mem _ (List.mem_cons_self _ _)
    · exact List.mem_cons_of_mem _ (List.mem_cons_of_mem _ h)

theorem foldl_pick_bound {α : Type} (r : α → α → Prop) (f : α → α → α)
    (hrefl : ∀ a, r a a)
    (htrans : ∀ a b c, r a b → r b c → r a c)
    (hfl : ∀ a b, r (f a b) a) (hfr : ∀ a b, r (f a b) b) :
    ∀ (xs : List α) (x : α) (a : α), a ∈ x :: xs → r (xs.foldl f x) a := by
  intro xs
  induction xs with
  | nil =>
    intro x a ha
    rw [List.mem_cons] at ha
    rcases ha with rfl | ha
    · exact hrefl a
    · exact absurd ha (List.not_mem_nil a)
  | cons y ys ih =>
    intro x a ha
    simp only [List.foldl_cons]
    rw [List.mem_cons] at ha
    rcases ha with rfl | ha
    · exact htrans _ _ _ (ih (f a y) (f a y) (List.mem_cons_self _ _)) (hfl a y)
    · rw [List.mem_cons] at ha
      rcases ha with rfl | ha
      · exact htrans _ _ _ (ih (f x a) (f x a) (List.mem_cons_self _ _))
          (hfr x a)
      · exact ih (f x y) a (List.mem_cons_of_mem _ ha)

theorem min_pick (a b : Int) : min a b = a ∨ min a b = b := by
  rcases le_total a b with h | h
  · exact .inl (min_eq_left h)
  · exact .inr (min_eq_right h)

theorem max_pick (a b : Int) : max a b = a ∨ max a b = b := by
  rcases le_total a b with h | h
  · exact .inr (max_eq_right h)
  · exact .inl (max_eq_left h)

theorem dateMin_pick (a b : Date) : dateMin a b = a ∨ dateMin a b = b := by
  unfold dateMin
  split
  · exact .inl rfl
  · exact .inr rfl

theorem dateMax_pick (a b : Date) : dateMax a b = a ∨ dateMax a b = b := by
  unfold dateMax
  split
  · exact .inr rfl
  · exact .inl rfl

theorem dateMin_le_left (a b : Date) : dateMin a b ≤ a := by
  unfold dateMin
  split
  · exact date_le_refl a
  · rename_i h
    exact (date_le_total a b).resolve_left h

theorem dateMin_le_right (a b : Date) : dateMin a b ≤ b := by
  unfold dateMin
  split
  · assumption
  · exact date_le_refl b

theorem le_dateMax_left (a b : Date) : a ≤ dateMax a b := by
  unfold dateMax
  split
  · assumption
  · exact date_le_refl a

theorem le_dateMax_right (a b : Date) : b ≤ dateMax a b := by
  unfold dateMax
  split
  · exact date_le_refl b
  · rename_i h
    exact (date_le_total a b).resolve_left h

theorem dedup_all_eq {v : DateDelta} :
    ∀ (xs : List DateDelta), (∀ x ∈ xs, x = v) → xs ≠ [] → xs.dedup = [v] := by
  intro xs
  induction xs with
  | nil =>
    intro _ h
    exact absurd rfl h
  | cons a ys ih =>
    intro hall _
    have ha : a = v := hall a (List.mem_cons_self a ys)
    by_cases hy : ys = []
    · subst hy
      subst ha
      rw [List.dedup_cons_of_not_mem (List.not_mem_nil a), List.dedup_nil]
    · have hih := ih (fun x hx => hall x (List.mem_cons_of_mem a hx)) hy
      rw [ha, List.dedup_cons_of_mem, hih]
      cases ys with
      | nil => exact absurd rfl hy
      | cons b bs =>
        have hb : b = v := hall b (List.mem_cons_of_mem a (List.mem_cons_self b bs))
        rw [← hb]
        exact List.mem_cons_self b bs

theorem dedup_length_one_all_eq {xs : List DateDelta}
    (h : xs.dedup.length = 1) : ∀ x ∈ xs, ∀ y ∈ xs, x = y := by
  obtain ⟨z, hz⟩ := List.length_eq_one.mp h
  intro x hx y hy
  have hx' : x ∈ xs.dedup := List.mem_dedup.mpr hx
  have hy' : y ∈ xs.dedup := List.mem_dedup.mpr hy
  rw [hz] at hx' hy'
  simp only [List.mem_singleton] at hx' hy'
  rw [hx', hy']

theorem merge_info_ok {i : ButterflyInfo} {rest : List ButterflyInfo}
    (hsame : ∀ a ∈ i :: rest, a.dateInterval = i.dateInterval) :
    merge_info (i :: rest) =
      .ok ⟨listMinI i.latMin (rest.map (fun g => g.latMin)),
           listMaxI i.latMax (rest.map (fun g => g.latMax)),
           listMinD i.dateStart (rest.map (fun g => g.dateStart)),
           listMaxD i.dateEnd (rest.map (fun g => g.dateEnd)),
           i.dateInterval⟩ := by
  unfold merge_info
  rw [if_neg]
  have hded : ((i :: rest).map (fun g => g.dateInterval)).dedup =
      [i.dateInterval] := by
    apply dedup_all_eq
    · intro x hx
      rw [List.mem_map] at hx
      obtain ⟨a, ha, rfl⟩ := hx
      exact hsame a ha
    · simp
  rw [hded]
  simp

/-- Claim C5: for every non-empty list of grids sharing one date interval,
`merge_info` returns the grid taking the minimum of all `lat_min`, the
maximum of all `lat_max`, the minimum of all `date_start`, the maximum of all
`date_end`, and the shared interval; merging a single grid is the identity;
the result is invariant under permutation of the list; and `merge_info`
fails whenever two inputs have differing intervals. -/
theorem c5_merge_info :
    (∀ l : List ButterflyInfo, l ≠ [] →
      (∀ a ∈ l, ∀ b ∈ l, a.dateInterval = b.dateInterval) →
      ∃ i, merge_info l = .ok i ∧
        (i.latMin ∈ l.map (fun g => g.latMin) ∧
          ∀ x ∈ l.map (fun g => g.latMin), i.latMin ≤ x) ∧
        (i.latMax ∈ l.map (fun g => g.latMax) ∧
          ∀ x ∈ l.map (fun g => g.latMax), x ≤ i.latMax) ∧
        (i.dateStart ∈ l.map (fun g => g.dateStart) ∧
          ∀ x ∈ l.map (fun g => g.dateStart), i.dateStart ≤ x) ∧
        (i.dateEnd ∈ l.map (fun g => g.dateEnd) ∧
          ∀ x ∈ l.map (fun g => g.dateEnd), x ≤ i.dateEnd) ∧
        (∀ a ∈ l, i.dateInterval = a.dateInterval)) ∧
    (∀ g : ButterflyInfo, merge_info [g] = .ok g) ∧
    (∀ l l' : List ButterflyInfo, l.Perm l' → merge_info l = merge_info l') ∧
    (∀ l : List ButterflyInfo, ∀ a ∈ l, ∀ b ∈ l,
      a.dateInterval ≠ b.dateInterval →
      merge_info l = .error "Date interval must be equal") := by
  have hbody : ∀ (i : ButterflyInfo) (rest : List ButterflyInfo),
      (∀ a ∈ i :: rest, a.dateInterval = i.dateInterval) →
      ∃ j, merge_info (i :: rest) = .ok j ∧
        (j.latMin ∈ (i :: rest).map (fun g => g.latMin) ∧
          ∀ x ∈ (i :: rest).map (fun g => g.latMin), j.latMin ≤ x) ∧
        (j.latMax ∈ (i :: rest).map (fun g => g.latMax) ∧
          ∀ x ∈ (i :: rest).map (fun g => g.latMax), x ≤ j.latMax) ∧
        (j.dateStart ∈ (i :: rest).map (fun g => g.dateStart) ∧
          ∀ x ∈ (i :: rest).map (fun g => g.dateStart), j.dateStart ≤ x) ∧
        (j.dateEnd ∈ (i :: rest).map (fun g => g.dateEnd) ∧
          ∀ x ∈ (i :: rest).map (fun g => g.dateEnd), x ≤ j.dateEnd) ∧
        (∀ a ∈ i :: rest, j.dateInterval = a.dateInterval) := by
    intro i rest hsame
    refine ⟨_, merge_info_ok hsame, ?_, ?_, ?_, ?_, ?_⟩
    · rw [List.map_cons]
      exact ⟨foldl_pick_mem min min_pick _ _,
        foldl_pick_bound (· ≤ ·) min (fun a => le_refl a)
          (fun a b c => le_trans) (fun a b => min_le_left a b)
          (fun a b => min_le_right a b) _ _⟩
    · rw [List.map_cons]
      exact ⟨foldl_pick_mem max max_pick _ _,
        foldl_pick_bound (fun x y => y ≤ x) max (fun a => le_refl a)
          (fun a b c h1 h2 => le_trans h2 h1) (fun a b => le_max_left a b)
          (fun a b => le_max_right a b) _ _⟩
    · rw [List.map_cons]
      exact ⟨foldl_pick_mem dateMin dateMin_pick _ _,
        foldl_pick_bound (· ≤ ·) dateMin date_le_refl
          (fun a b c => date_le_trans) dateMin_le_left dateMin_le_right _ _⟩
    · rw [List.map_cons]
      exact ⟨foldl_pick_mem dateMax dateMax_pick _ _,
        foldl_pick_bound (fun x y => y ≤ x) dateMax date_le_refl
          (fun a b c h1 h2 => date_le_trans h2 h1) le_dateMax_left
          le_dateMax_right _ _⟩
    · intro a ha
      exact (hsame a ha).symm
  refine ⟨?_, ?_, ?_, ?_⟩
  · intro l hne hsame
    cases l with
    | nil => exact absurd rfl hne
    | cons i rest =>
      exact hbody i rest (fun a ha =>
        hsame a ha i (List.mem_cons_self i rest))
  · intro g
    have h := @merge_info_ok g [] (by
      intro a ha
      rw [List.mem_singleton] at ha
      rw [ha])
    rw [h]
    rfl
  · intro l l' hp
    by_cases hone : (l.map (fun g => g.dateInterval)).dedup.length = 1
    · have hone' : (l'.map (fun g => g.dateInterval)).dedup.length = 1 := by
        rw [← ((hp.map (fun g => g.dateInterval)).dedup).length_eq]
        exact hone
      cases l with
      | nil => simp at hone
      | cons i rest =>
        cases l' with
        | nil =>
          have := hp.length_eq
          simp at this
        | cons j rest' =>
          have hsame := dedup_length_one_all_eq hone
          have hsame' := dedup_length_one_all_eq hone'
          have hsameL : ∀ a ∈ i :: rest, a.dateInterval = i.dateInterval :=
            fun a ha => hsame _ (List.mem_map_of_mem _ ha) _
              (List.mem_map_of_mem _ (List.mem_cons_self i rest))
          have hsameL' : ∀ a ∈ j :: rest', a.dateInterval = j.dateInterval :=
            fun a ha => hsame' _ (List.mem_map_of_mem _ ha) _
              (List.mem_map_of_mem _ (List.mem_cons_self j rest'))
          obtain ⟨x1, hx1, hx1min, hx1max, hx1ds, hx1de, hx1int⟩ :=
            hbody i rest hsameL
          obtain ⟨x2, hx2, hx2min, hx2max, hx2ds, hx2de, hx2int⟩ :=
            hbody j rest' hsameL'
          rw [hx1, hx2]
          have hmm : ∀ (f : ButterflyInfo → Int) (v : Int),
              v ∈ (i :: rest).map f ↔ v ∈ (j :: rest').map f :=
            fun f v => (hp.map f).mem_iff
          have hmd : ∀ (f : ButterflyInfo → Date) (v : Date),
              v ∈ (i :: rest).map f ↔ v ∈ (j :: rest').map f :=
            fun f v => (hp.map f).mem_iff
          have e1 : x1.latMin = x2.latMin :=
            le_antisymm (hx1min.2 _ ((hmm _ _).mpr hx2min.1))
              (hx2min.2 _ ((hmm _ _).mp hx1min.1))
          have e2 : x1.latMax = x2.latMax :=
            le_antisymm (hx2max.2 _ ((hmm _ _).mp hx1max.1))
              (hx1max.2 _ ((hmm _ _).mpr hx2max.1))
          have e3 : x1.dateStart = x2.dateStart :=
            date_le_antisymm (hx1ds.2 _ ((hmd _ _).mpr hx2ds.1))
              (hx2ds.2 _ ((hmd _ _).mp hx1ds.1))
          have e4 : x1.dateEnd = x2.dateEnd :=
            date_le_antisymm (hx2de.2 _ ((hmd _ _).mp hx1de.1))
              (hx1de.2 _ ((hmd _ _).mpr hx2de.1))
          have e5 : x1.dateInterval = x2.dateInterval := by
            rw [hx1int i (List.mem_cons_self i rest),
              hx2int i (hp.mem_iff.mp (List.mem_cons_self i rest))]
          cases x1
          cases x2
          simp only at e1 e2 e3 e4 e5
          rw [e1, e2, e3, e4, e5]
    · have hone' : (l'.map (fun g => g.dateInterval)).dedup.length ≠ 1 := by
        rw [← ((hp.map (fun g => g.dateInterval)).dedup).length_eq]
        exact hone
      unfold merge_info
      rw [if_pos hone, if_pos hone']
  · intro l a ha b hb hne
    unfold merge_info
    rw [if_pos]
    intro heq
    exact hne (dedup_length_one_all_eq heq _ (List.mem_map_of_mem _ ha) _
      (List.mem_map_of_mem _ hb))

/-- Claim C5 witness: instantiation at concrete grids. -/
theorem c5_merge_info_witness :
    merge_info
        [⟨-10, 50, ⟨2020, 1, 1⟩, ⟨2020, 2, 2⟩, ⟨0, 1, 0⟩⟩,
         ⟨-40, 40, ⟨2010, 5, 1⟩, ⟨2011, 12, 1⟩, ⟨0, 1, 0⟩⟩] =
      merge_info
        [⟨-40, 40, ⟨2010, 5, 1⟩, ⟨2011, 12, 1⟩, ⟨0, 1, 0⟩⟩,
         ⟨-10, 50, ⟨2020, 1, 1⟩, ⟨2020, 2, 2⟩, ⟨0, 1, 0⟩⟩] ∧
    merge_info
        [⟨-10, 50, ⟨2020, 1, 1⟩, ⟨2020, 2, 2⟩, ⟨0, 1, 0⟩⟩,
         ⟨-40, 40, ⟨2010, 5, 1⟩, ⟨2011, 12, 1⟩, ⟨0, 0, 1⟩⟩] =
      .error "Date interval must be equal" ∧
    merge_info [⟨-50, 50, ⟨2020, 2, 2⟩, ⟨2020, 5, 5⟩, ⟨0, 0, 1⟩⟩] =
      .ok ⟨-50, 50, ⟨2020, 2, 2⟩, ⟨2020, 5, 5⟩, ⟨0, 0, 1⟩⟩ :=
  ⟨c5_merge_info.2.2.1 _ _ (List.Perm.swap _ _ _),
   c5_merge_info.2.2.2
     [⟨-10, 50, ⟨2020, 1, 1⟩, ⟨2020, 2, 2⟩, ⟨0, 1, 0⟩⟩,
      ⟨-40, 40, ⟨2010, 5, 1⟩, ⟨2011, 12, 1⟩, ⟨0, 0, 1⟩⟩]
     ⟨-10, 50, ⟨2020, 1, 1⟩, ⟨2020, 2, 2⟩, ⟨0, 1, 0⟩⟩ (by simp)
     ⟨-40, 40, ⟨2010, 5, 1⟩, ⟨2011, 12, 1⟩, ⟨0, 0, 1⟩⟩ (by simp)
     (by decide),
   c5_merge_info.2.1 _⟩

/-- Claim C10: `merge_info` applied to the empty list raises the same
`ValueError` "Date interval must be equal" as an interval mismatch — the
interval-cardinality check fails first (the set of intervals has size 0),
before any list element is accessed. -/
theorem c10_merge_info_empty :
    merge_info [] = .error "Date interval must be equal" := by
  rfl

/-- Claim C9 (amended): the compositing addition fails on bitmaps whose
shapes disagree, except when numpy broadcasting applies (a disagreeing
dimension equal to 1); moreover inside `create_merged_image` every source
bitmap has shape `(calc_lat_size, calc_date_size)` by construction — the
fill re-rasterizes each source on the shared grid — so no shape mismatch can
arise there at all. -/
theorem c9_npAdd_mismatch :
    (∀ a b : NpImg,
      (a.rows ≠ b.rows ∧ a.rows ≠ 1 ∧ b.rows ≠ 1) ∨
        (a.cols ≠ b.cols ∧ a.cols ≠ 1 ∧ b.cols ≠ 1) →
      npAdd a b = none) ∧
    (∀ (df : List AggRow) (info : ButterflyInfo),
      (create_image (fill_lat df info.dateStart info.dateEnd
          info.dateInterval) info).rows = latSizeNat info ∧
      (create_image (fill_lat df info.dateStart info.dateEnd
          info.dateInterval) info).cols = calc_date_size info) := by
  constructor
  · intro a b h
    rcases h with ⟨h1, h2, h3⟩ | ⟨h1, h2, h3⟩
    · have hr : bcastDim a.rows b.rows = none := by
        unfold bcastDim
        rw [if_neg h1, if_neg h2, if_neg h3]
      unfold npAdd
      rw [hr]
    · have hc : bcastDim a.cols b.cols = none := by
        unfold bcastDim
        rw [if_neg h1, if_neg h2, if_neg h3]
      unfold npAdd
      rw [hc]
      cases hr : bcastDim a.rows b.rows <;> rfl
  · intro df info
    refine ⟨rfl, ?_⟩
    show (fill_lat df info.dateStart info.dateEnd info.dateInterval).length = _
    unfold fill_lat calc_date_size
    rw [List.length_map]

/-- Claim C9 counterexample: bitmaps of shapes (1,1) and (1,2) disagree, yet
the numpy compositing addition broadcasts and returns a composite image
instead of raising. -/
theorem c9_counterexample :
    (NpImg.mk 1 1 [5]).cols ≠ (NpImg.mk 1 2 [1, 2]).cols ∧
    npAdd ⟨1, 1, [5]⟩ ⟨1, 2, [1, 2]⟩ = some ⟨1, 2, [6, 7]⟩ := by
  decide

theorem find_date_of_mem {df : List AggRow}
    (hnodup : (df.map (fun r => r.date)).Nodup) {r : AggRow} (hr : r ∈ df) :
    df.find? (fun x => decide (x.date = r.date)) = some r := by
  induction df with
  | nil => cases hr
  | cons a l ih =>
    rw [List.map_cons, List.nodup_cons] at hnodup
    by_cases had : a.date = r.date
    · have hdec : decide (a.date = r.date) = true := decide_eq_true had
      rw [List.find?_cons, hdec]
      rcases List.mem_cons.mp hr with rfl | hrl
      · rfl
      · have : a.date ∈ l.map (fun x => x.date) := by
          rw [had]
          exact List.mem_map_of_mem _ hrl
        exact absurd this hnodup.1
    · have hdec : decide (a.date = r.date) = false := decide_eq_false had
      rw [List.find?_cons, hdec]
      rcases List.mem_cons.mp hr with rfl | hrl
      · exact absurd rfl had
      · exact ih hnodup.2 hrl

/-- Claim C3: for every aggregated table with distinct periods all lying on
the grid's period sequence (the precondition), `fill_lat` returns exactly
one row per period from `start` to `stop` inclusive, sorted strictly
ascending with no duplicates; periods absent from the input get empty
`min`/`max` lists, rows present keep their lists, and the row count equals
`calc_date_size` of that range and interval. -/
theorem c3_fill_lat (df : List AggRow) (start stop : Date) (δ : DateDelta)
    (hs : start.Valid) (hst : stop.Valid) (hδ : δ.Valid)
    (hnodup : (df.map (fun r => r.date)).Nodup)
    (hrange : ∀ r ∈ df, r.date ∈ dateRange start stop δ) :
    ((fill_lat df start stop δ).map (fun r => r.date) =
        dateRange start stop δ) ∧
    ((fill_lat df start stop δ).map (fun r => r.date)).Pairwise (· < ·) ∧
    ((fill_lat df start stop δ).map (fun r => r.date)).Nodup ∧
    (∀ r ∈ df, r ∈ fill_lat df start stop δ) ∧
    (∀ row ∈ fill_lat df start stop δ,
      row ∈ df ∨ (row.min = [] ∧ row.max = [] ∧
        row.date ∉ df.map (fun r => r.date))) ∧
    (fill_lat df start stop δ).length =
      calc_date_size ⟨0, 0, start, stop, δ⟩ := by
  refine ⟨fill_lat_dates df start stop δ, ?_, ?_, ?_, ?_, ?_⟩
  · rw [fill_lat_dates]
    exact dateRange_pairwise_lt hs hδ
  · rw [fill_lat_dates]
    exact dateRange_nodup hs hδ
  · intro r hr
    unfold fill_lat
    rw [List.mem_map]
    refine ⟨r.date, hrange r hr, ?_⟩
    rw [find_date_of_mem hnodup hr]
  · intro row hrow
    unfold fill_lat at hrow
    rw [List.mem_map] at hrow
    obtain ⟨p, hp, hrow⟩ := hrow
    cases hf : df.find? (fun x => decide (x.date = p)) with
    | some x =>
      rw [hf] at hrow
      left
      rw [← hrow]
      exact List.mem_of_find?_eq_some hf
    | none =>
      rw [hf] at hrow
      right
      rw [← hrow]
      refine ⟨rfl, rfl, ?_⟩
      intro hmem
      rw [List.mem_map] at hmem
      obtain ⟨r, hr, hrd⟩ := hmem
      have hnone := List.find?_eq_none.mp hf r hr
      simp only [decide_eq_true_eq] at hnone
      exact hnone hrd
  · show (fill_lat df start stop δ).length = _
    unfold fill_lat calc_date_size
    rw [List.length_map]

/-- Claim C3 witness: instantiation at a concrete aggregated table and
grid. -/
theorem c3_fill_lat_witness :
    (fill_lat [⟨⟨2020, 2, 2⟩, [1], [2]⟩] ⟨2020, 2, 1⟩ ⟨2020, 2, 3⟩
        ⟨0, 0, 1⟩).map (fun r => r.date) =
      dateRange ⟨2020, 2, 1⟩ ⟨2020, 2, 3⟩ ⟨0, 0, 1⟩ :=
  (c3_fill_lat [⟨⟨2020, 2, 2⟩, [1], [2]⟩] ⟨2020, 2, 1⟩ ⟨2020, 2, 3⟩ ⟨0, 0, 1⟩
    (by decide) (by decide) (by decide) (by decide) (by decide)).1

theorem find?_key (p : Date) : ∀ (l : List Date),
    l.find? (fun k => decide (k = p)) = if p ∈ l then some p else none := by
  intro l
  induction l with
  | nil => simp
  | cons a t ih =>
    by_cases hap : a = p
    · subst hap
      rw [List.find?_cons]
      simp
    · have hdec : decide (a = p) = false := decide_eq_false hap
      rw [List.find?_cons, hdec, ih]
      by_cases hp : p ∈ t
      · rw [if_pos hp, if_pos (List.mem_cons_of_mem a hp)]
      · rw [if_neg hp, if_neg]
        intro hc
        rcases List.mem_cons.mp hc with h | h
        · exact hap h.symm
        · exact hp h

theorem agg_lat_find (df : List ObsRow) (δ : DateDelta) (p : Date) :
    (agg_lat df δ).find? (fun r => decide (r.date = p)) =
      if p ∈ df.map (fun r => truncateDate δ r.date) then
        some ⟨p,
          (df.filter (fun r => decide (truncateDate δ r.date = p))).map
            (fun r => r.lat_min),
          (df.filter (fun r => decide (truncateDate δ r.date = p))).map
            (fun r => r.lat_max)⟩
      else none := by
  unfold agg_lat
  rw [List.find?_map]
  show (((df.map (fun r => truncateDate δ r.date)).dedup).find?
      (fun k => decide (k = p))).map _ = _
  rw [find?_key]
  by_cases hp : p ∈ (df.map (fun r => truncateDate δ r.date)).dedup
  · rw [if_pos hp, if_pos (List.mem_dedup.mp hp)]
    rfl
  · rw [if_neg hp, if_neg (fun hc => hp (List.mem_dedup.mpr hc))]
    rfl

/-- Claim C4 (amended): `calc_lat` performs no raw-date clipping; a raw
observation row contributes to the output exactly when its period — the
observation date floored to the grid interval — is one of the grid's
periods: removing every row whose period lies outside the generated period
sequence leaves the output unchanged.  In particular a row whose raw date
exceeds `date_end` but whose floored period start lies in range does
contribute (see the counterexample, which is the repository's own
`test_calc_lat` fixture). -/
theorem c4_calc_lat (df : List ObsRow) (info : ButterflyInfo) :
    calc_lat df info =
      calc_lat (df.filter (fun r => decide (truncateDate info.dateInterval
        r.date ∈ dateRange info.dateStart info.dateEnd info.dateInterval)))
        info := by
  unfold calc_lat fill_lat
  apply List.map_congr_left
  intro p hp
  rw [agg_lat_find, agg_lat_find]
  by_cases hmem : p ∈ df.map (fun r => truncateDate info.dateInterval r.date)
  · have hmem2 : p ∈ (df.filter (fun r =>
        decide (truncateDate info.dateInterval r.date ∈
          dateRange info.dateStart info.dateEnd info.dateInterval))).map
        (fun r => truncateDate info.dateInterval r.date) := by
      rw [List.mem_map] at hmem ⊢
      obtain ⟨r, hr, hrp⟩ := hmem
      refine ⟨r, List.mem_filter.mpr ⟨hr, ?_⟩, hrp⟩
      rw [hrp]
      exact decide_eq_true hp
    have hfil : (df.filter (fun r =>
        decide (truncateDate info.dateInterval r.date ∈
          dateRange info.dateStart info.dateEnd info.dateInterval))).filter
          (fun r => decide (truncateDate info.dateInterval r.date = p)) =
        df.filter (fun r =>
          decide (truncateDate info.dateInterval r.date = p)) := by
      rw [List.filter_filter]
      apply List.filter_congr
      intro r hr
      by_cases ht : truncateDate info.dateInterval r.date = p
      · have htr : truncateDate info.dateInterval r.date ∈
            dateRange info.dateStart info.dateEnd info.dateInterval := by
          rw [ht]
          exact hp
        rw [decide_eq_true ht, decide_eq_true htr]
        rfl
      · rw [decide_eq_false ht]
        rfl
    rw [if_pos hmem, if_pos hmem2, hfil]
  · have hmem2 : p ∉ (df.filter (fun r =>
        decide (truncateDate info.dateInterval r.date ∈
          dateRange info.dateStart info.dateEnd info.dateInterval))).map
        (fun r => truncateDate info.dateInterval r.date) := by
      intro hc
      rw [List.mem_map] at hc
      obtain ⟨r, hr, hrp⟩ := hc
      exact hmem (List.mem_map.mpr ⟨r, (List.mem_filter.mp hr).1, hrp⟩)
    rw [if_neg hmem, if_neg hmem2]

/-- Claim C4 counterexample: in the repository's own `test_calc_lat`
fixture, the observation dated 2020-03-03 lies outside the closed range
[2020-01-01, 2020-03-01] yet contributes its latitudes (3, 6) to the
2020-03-01 period of the output — so `calc_lat` does not clip raw rows to
the date range. -/
theorem c4_counterexample :
    ¬((Date.mk 2020 3 3) ≤ Date.mk 2020 3 1) ∧
    calc_lat
        [⟨⟨2020, 2, 2⟩, 1, 4⟩, ⟨⟨2020, 2, 20⟩, 2, 5⟩, ⟨⟨2020, 3, 3⟩, 3, 6⟩]
        ⟨0, 0, ⟨2020, 1, 1⟩, ⟨2020, 3, 1⟩, ⟨0, 1, 0⟩⟩ =
      [⟨⟨2020, 1, 1⟩, [], []⟩, ⟨⟨2020, 2, 1⟩, [1, 2], [4, 5]⟩,
       ⟨⟨2020, 3, 1⟩, [3], [6]⟩] := by
  decide

theorem color_fold_rows (img : NpImg) :
    ∀ (L : List (Nat × Color)) (acc : RgbImg),
    (L.foldl (fun a p => (⟨a.rows, a.cols,
      List.zipWith (fun q v => if v = p.1 + 1 then
        (p.2.red, p.2.green, p.2.blue) else q) a.data img.data⟩ : RgbImg))
      acc).rows = acc.rows := by
  intro L
  induction L with
  | nil => intro acc; rfl
  | cons c cs ih =>
    intro acc
    rw [List.foldl_cons, ih]

theorem color_fold_cols (img : NpImg) :
    ∀ (L : List (Nat × Color)) (acc : RgbImg),
    (L.foldl (fun a p => (⟨a.rows, a.cols,
      List.zipWith (fun q v => if v = p.1 + 1 then
        (p.2.red, p.2.green, p.2.blue) else q) a.data img.data⟩ : RgbImg))
      acc).cols = acc.cols := by
  intro L
  induction L with
  | nil => intro acc; rfl
  | cons c cs ih =>
    intro acc
    rw [List.foldl_cons, ih]

theorem color_fold_data (img : NpImg) :
    ∀ (L : List (Nat × Color)) (acc : RgbImg),
    (L.foldl (fun a p => (⟨a.rows, a.cols,
      List.zipWith (fun q v => if v = p.1 + 1 then
        (p.2.red, p.2.green, p.2.blue) else q) a.data img.data⟩ : RgbImg))
      acc).data =
    L.foldl (fun d p =>
      List.zipWith (fun q v => if v = p.1 + 1 then
        (p.2.red, p.2.green, p.2.blue) else q) d img.data) acc.data := by
  intro L
  induction L with
  | nil => intro acc; rfl
  | cons c cs ih =>
    intro acc
    rw [List.foldl_cons, List.foldl_cons, ih]

theorem color_fold_px (img : NpImg) :
    ∀ (L : List Color) (n : Nat) (accd : List (Nat × Nat × Nat))
    (hlen : accd.length = img.data.length) (idx : Nat)
    (hidx : idx < accd.length),
    ((L.enumFrom n).foldl (fun d p =>
        List.zipWith (fun q v => if v = p.1 + 1 then
          (p.2.red, p.2.green, p.2.blue) else q) d img.data)
        accd).getD idx (0, 0, 0) =
      if n + 1 ≤ img.data.getD idx 0 ∧
          img.data.getD idx 0 ≤ n + L.length then
        rgbOf (L.getD (img.data.getD idx 0 - (n + 1)) ⟨0, 0, 0⟩)
      else accd.getD idx (0, 0, 0) := by
  intro L
  induction L with
  | nil =>
    intro n accd hlen idx hidx
    rw [if_neg (by simp only [List.length_nil]; omega)]
    rfl
  | cons c cs ih =>
    intro n accd hlen idx hidx
    have hstep : ((c :: cs).enumFrom n) =
        (n, c) :: cs.enumFrom (n + 1) := rfl
    rw [hstep, List.foldl_cons]
    have hlen1 : (List.zipWith (fun q v => if v = n + 1 then
        (c.red, c.green, c.blue) else q) accd img.data).length =
        img.data.length := by
      rw [List.length_zipWith, hlen, Nat.min_self]
    rw [ih (n + 1) _ hlen1 idx (by omega)]
    have hacc1 : (List.zipWith (fun q v => if v = n + 1 then
        (c.red, c.green, c.blue) else q) accd img.data).getD idx (0, 0, 0) =
        if img.data.getD idx 0 = n + 1 then (c.red, c.green, c.blue)
        else accd.getD idx (0, 0, 0) := by
      have hidx2 : idx < img.data.length := by omega
      rw [List.getD_eq_getElem _ _ (by omega : idx < (List.zipWith _ accd
        img.data).length), List.getElem_zipWith,
        List.getD_eq_getElem _ _ hidx, List.getD_eq_getElem _ _ hidx2]
    by_cases h1 : n + 1 + 1 ≤ img.data.getD idx 0 ∧
        img.data.getD idx 0 ≤ n + 1 + cs.length
    · rw [if_pos h1, if_pos (by simp only [List.length_cons]; omega)]
      have e1 : img.data.getD idx 0 - (n + 1) =
          (img.data.getD idx 0 - (n + 1 + 1)) + 1 := by omega
      rw [e1, List.getD_cons_succ]
    · rw [if_neg h1, hacc1]
      by_cases h2 : img.data.getD idx 0 = n + 1
      · rw [if_pos h2, if_pos (by simp only [List.length_cons]; omega)]
        rw [h2]
        simp only [Nat.sub_self, List.getD_cons_zero]
        rfl
      · rw [if_neg h2, if_neg (by simp only [List.length_cons]; omega)]

/-- Claim C7: `create_color_image` returns an RGB image of the same 2-D
shape where a pixel whose composite value `v` satisfies
`1 ≤ v ≤ length(color_table)` becomes `color_table[v-1]` — a direct value
lookup — and a pixel whose value is 0 or exceeds the table length is white
`(255,255,255)`, regardless of the table's contents. -/
theorem c7_create_color_image (img : NpImg) (cmap : ColorMap)
    (hwf : img.data.length = img.rows * img.cols)
    (i j : Nat) (hi : i < img.rows) (hj : j < img.cols) :
    (create_color_image img cmap).rows = img.rows ∧
    (create_color_image img cmap).cols = img.cols ∧
    (create_color_image img cmap).px i j =
      (if h : 1 ≤ img.px i j ∧ img.px i j ≤ cmap.cmap.length then
        rgbOf (cmap.cmap.get ⟨img.px i j - 1, by omega⟩)
      else (255, 255, 255)) := by
  have hrows := color_fold_rows img (cmap.cmap.enum)
    ⟨img.rows, img.cols, List.replicate (img.rows * img.cols) (255, 255, 255)⟩
  have hcols := color_fold_cols img (cmap.cmap.enum)
    ⟨img.rows, img.cols, List.replicate (img.rows * img.cols) (255, 255, 255)⟩
  have hdata := color_fold_data img (cmap.cmap.enum)
    ⟨img.rows, img.cols, List.replicate (img.rows * img.cols) (255, 255, 255)⟩
  refine ⟨hrows, hcols, ?_⟩
  have hidx : i * img.cols + j < img.rows * img.cols := by
    calc i * img.cols + j < i * img.cols + img.cols := by omega
    _ = (i + 1) * img.cols := by ring
    _ ≤ img.rows * img.cols := Nat.mul_le_mul_right _ hi
  show (create_color_image img cmap).data.getD
    (i * (create_color_image img cmap).cols + j) (0, 0, 0) = _
  rw [show (create_color_image img cmap).cols = img.cols from hcols]
  rw [show (create_color_image img cmap).data = _ from hdata]
  have hpx := color_fold_px img cmap.cmap 0
    (List.replicate (img.rows * img.cols) (255, 255, 255))
    (by rw [List.length_replicate, hwf]) (i * img.cols + j)
    (by rw [List.length_replicate]; exact hidx)
  have henum : cmap.cmap.enum = List.enumFrom 0 cmap.cmap := rfl
  have hproj : (RgbImg.mk img.rows img.cols (List.replicate
        (img.rows * img.cols) (255, 255, 255))).data =
      List.replicate (img.rows * img.cols) (255, 255, 255) := rfl
  rw [henum, hproj, hpx]
  have hwhite : (List.replicate (img.rows * img.cols)
      ((255 : Nat), (255 : Nat), (255 : Nat))).getD (i * img.cols + j)
      (0, 0, 0) = (255, 255, 255) := by
    rw [List.getD_eq_getElem _ _ (by rw [List.length_replicate]; exact hidx),
      List.getElem_replicate]
  have hv : img.data.getD (i * img.cols + j) 0 = img.px i j := rfl
  by_cases h : 1 ≤ img.px i j ∧ img.px i j ≤ cmap.cmap.length
  · rw [if_pos (by rw [hv]; omega), dif_pos h]
    rw [hv]
    have hb : img.px i j - (0 + 1) < cmap.cmap.length := by omega
    rw [List.getD_eq_getElem _ _ hb]
    congr 1
  · rw [if_neg (by rw [hv]; omega), dif_neg h, hwhite]

/-- Claim C7 witness: instantiation at the repository's own
`test_create_color_image` fixture. -/
theorem c7_create_color_image_witness :
    (create_color_image ⟨3, 3, [0, 0, 0, 0, 1, 2, 3, 2, 1]⟩
      ⟨[⟨255, 0, 0⟩, ⟨0, 255, 0⟩, ⟨0, 0, 255⟩]⟩).px 2 0 =
      (if h : 1 ≤ (NpImg.mk 3 3 [0, 0, 0, 0, 1, 2, 3, 2, 1]).px 2 0 ∧
          (NpImg.mk 3 3 [0, 0, 0, 0, 1, 2, 3, 2, 1]).px 2 0 ≤
            (ColorMap.mk [⟨255, 0, 0⟩, ⟨0, 255, 0⟩, ⟨0, 0, 255⟩]).cmap.length
        then rgbOf ((ColorMap.mk
          [⟨255, 0, 0⟩, ⟨0, 255, 0⟩, ⟨0, 0, 255⟩]).cmap.get
            ⟨(NpImg.mk 3 3 [0, 0, 0, 0, 1, 2, 3, 2, 1]).px 2 0 - 1, by omega⟩)
      else (255, 255, 255)) :=
  (c7_create_color_image ⟨3, 3, [0, 0, 0, 0, 1, 2, 3, 2, 1]⟩
    ⟨[⟨255, 0, 0⟩, ⟨0, 255, 0⟩, ⟨0, 0, 255⟩]⟩ (by decide) 2 0 (by decide)
    (by decide)).2.2

theorem length_flatMap_const {α : Type} (g : Nat → List α) (len : Nat)
    (h : ∀ i, (g i).length = len) (n : Nat) :
    ((List.range n).flatMap g).length = n * len := by
  induction n with
  | zero => simp
  | succ m ih =>
    rw [List.range_succ, List.flatMap_append, List.length_append, ih]
    have h1 : ([m] : List Nat).flatMap g = g m ++ [] := rfl
    rw [h1, List.append_nil, h m]
    ring

theorem flatMap_range_getD {α : Type} (g : Nat → List α) (len : Nat) (z : α)
    (hg : ∀ i, (g i).length = len) :
    ∀ (n r c : Nat), r < n → c < len →
    ((List.range n).flatMap g).getD (r * len + c) z = (g r).getD c z := by
  intro n
  induction n with
  | zero =>
    intro r c hr
    exact absurd hr (Nat.not_lt_zero r)
  | succ m ih =>
    intro r c hr hc
    rw [List.range_succ, List.flatMap_append]
    have hlen := length_flatMap_const g len hg m
    by_cases hrm : r < m
    · have hidx : r * len + c < ((List.range m).flatMap g).length := by
        rw [hlen]
        calc r * len + c < r * len + len := by omega
        _ = (r + 1) * len := by ring
        _ ≤ m * len := Nat.mul_le_mul_right _ hrm
      rw [List.getD_append _ _ _ _ hidx]
      exact ih r c hrm hc
    · have hrm' : r = m := by omega
      subst hrm'
      have hidx : ((List.range r).flatMap g).length ≤ r * len + c := by
        rw [hlen]
        omega
      rw [List.getD_append_right _ _ _ _ hidx, hlen]
      have h1 : ([r] : List Nat).flatMap g = g r ++ [] := rfl
      rw [h1, List.append_nil]
      congr 1
      omega

theorem map_range_getD {α : Type} (f : Nat → α) (z : α) {n j : Nat}
    (hj : j < n) : ((List.range n).map f).getD j z = f j := by
  have hlen : j < ((List.range n).map f).length := by
    rw [List.length_map, List.length_range]
    exact hj
  rw [List.getD_eq_getElem _ _ hlen, List.getElem_map, List.getElem_range]

theorem create_image_rows (df : List AggRow) (info : ButterflyInfo) :
    (create_image df info).rows = latSizeNat info := rfl

theorem create_image_cols (df : List AggRow) (info : ButterflyInfo) :
    (create_image df info).cols = df.length := rfl

theorem create_image_data_length (df : List AggRow) (info : ButterflyInfo) :
    (create_image df info).data.length = latSizeNat info * df.length := by
  show ((List.range (latSizeNat info)).flatMap _).length = _
  exact length_flatMap_const _ df.length
    (fun i => by rw [List.length_map]) (latSizeNat info)

theorem create_image_px (df : List AggRow) (info : ButterflyInfo)
    {r c : Nat} (hr : r < latSizeNat info) (hc : c < df.length) :
    (create_image df info).px r c =
      if rowCovered info r (df.getD c ⟨⟨0, 0, 0⟩, [], []⟩) then 1 else 0 := by
  show ((List.range (latSizeNat info)).flatMap _).getD (r * df.length + c) 0 = _
  rw [flatMap_range_getD _ df.length 0 (fun i => by rw [List.length_map])
    (latSizeNat info) r c hr hc]
  rw [List.getD_eq_getElem _ _ (by rw [List.length_map]; exact hc),
    List.getElem_map, List.getD_eq_getElem _ _ hc]

theorem create_image_px_le_one (df : List AggRow) (info : ButterflyInfo)
    {r c : Nat} (hr : r < latSizeNat info) (hc : c < df.length) :
    (create_image df info).px r c ≤ 1 := by
  rw [create_image_px df info hr hc]
  split <;> omega

theorem shiftLeftU8_px (img : NpImg) (i r c : Nat)
    (hlen : img.data.length = img.rows * img.cols)
    (hr : r < img.rows) (hc : c < img.cols) :
    (shiftLeftU8 img i).px r c = img.px r c * 2 ^ i % 256 := by
  show (img.data.map _).getD (r * img.cols + c) 0 = _
  have hidx : r * img.cols + c < img.data.length := by
    rw [hlen]
    calc r * img.cols + c < r * img.cols + img.cols := by omega
    _ = (r + 1) * img.cols := by ring
    _ ≤ img.rows * img.cols := Nat.mul_le_mul_right _ hr
  rw [List.getD_eq_getElem _ _ (by rw [List.length_map]; exact hidx),
    List.getElem_map]
  rw [NpImg.px, List.getD_eq_getElem _ _ hidx]

theorem zerosImg_px (r c i j : Nat) (hi : i < r) (hj : j < c) :
    (zerosImg r c).px i j = 0 := by
  show (List.replicate (r * c) 0).getD (i * c + j) 0 = 0
  have hidx : i * c + j < r * c := by
    calc i * c + j < i * c + c := by omega
    _ = (i + 1) * c := by ring
    _ ≤ r * c := Nat.mul_le_mul_right _ hi
  rw [List.getD_eq_getElem _ _ (by rw [List.length_replicate]; exact hidx),
    List.getElem_replicate]

theorem npAdd_same (a b : NpImg) (hr : a.rows = b.rows) (hc : a.cols = b.cols) :
    ∃ s, npAdd a b = some s ∧ s.rows = a.rows ∧ s.cols = a.cols ∧
      s.data.length = s.rows * s.cols ∧
      ∀ i j, i < a.rows → j < a.cols →
        s.px i j = (a.px i j + b.px i j) % 65536 := by
  have hbr : bcastDim a.rows b.rows = some a.rows := by
    unfold bcastDim
    rw [if_pos hr]
  have hbc : bcastDim a.cols b.cols = some a.cols := by
    unfold bcastDim
    rw [if_pos hc]
  have heq : npAdd a b = some ⟨a.rows, a.cols,
      (List.range a.rows).flatMap (fun i => (List.range a.cols).map (fun j =>
        (a.px (if a.rows = 1 then 0 else i) (if a.cols = 1 then 0 else j) +
          b.px (if b.rows = 1 then 0 else i) (if b.cols = 1 then 0 else j))
          % 65536))⟩ := by
    unfold npAdd
    rw [hbr, hbc]
  refine ⟨_, heq, rfl, rfl, ?_, ?_⟩
  · show ((List.range a.rows).flatMap _).length = a.rows * a.cols
    exact length_flatMap_const _ a.cols
      (fun i => by rw [List.length_map, List.length_range]) a.rows
  · intro i j hi hj
    show ((List.range a.rows).flatMap _).getD (i * a.cols + j) 0 = _
    rw [flatMap_range_getD _ a.cols 0
      (fun k => by rw [List.length_map, List.length_range]) a.rows i j hi hj]
    rw [map_range_getD _ _ hj]
    have e1 : (if a.rows = 1 then 0 else i) = i := by
      split
      · omega
      · rfl
    have e2 : (if a.cols = 1 then 0 else j) = j := by
      split
      · omega
      · rfl
    have e3 : (if b.rows = 1 then 0 else i) = i := by
      split
      · rename_i h
        rw [← hr] at h
        omega
      · rfl
    have e4 : (if b.cols = 1 then 0 else j) = j := by
      split
      · rename_i h
        rw [← hc] at h
        omega
      · rfl
    rw [e1, e2, e3, e4]

theorem bitmap_cols (df : List AggRow) (info : ButterflyInfo) :
    (create_image (fill_lat df info.dateStart info.dateEnd info.dateInterval)
      info).cols = calc_date_size info := by
  rw [create_image_cols]
  unfold fill_lat calc_date_size
  rw [List.length_map]

theorem merged_fold (info : ButterflyInfo) (r c : Nat)
    (hr : r < latSizeNat info) (hc : c < calc_date_size info) :
    ∀ (L : List (List AggRow)) (n : Nat) (A : NpImg),
    A.rows = latSizeNat info → A.cols = calc_date_size info →
    A.data.length = A.rows * A.cols → A.px r c < 65536 →
    ∃ B, (L.enumFrom n).foldl
        (fun acc p => acc.bind (fun a =>
          npAdd a (shiftLeftU8 (create_image (fill_lat p.2 info.dateStart
            info.dateEnd info.dateInterval) info) p.1)))
        (some A) = some B ∧
      B.rows = latSizeNat info ∧ B.cols = calc_date_size info ∧
      B.data.length = B.rows * B.cols ∧
      B.px r c = (A.px r c +
        ((L.enumFrom n).map (fun p =>
          (create_image (fill_lat p.2 info.dateStart info.dateEnd
            info.dateInterval) info).px r c * 2 ^ p.1 % 256)).sum) % 65536 := by
  intro L
  induction L with
  | nil =>
    intro n A h1 h2 h3 h4
    refine ⟨A, rfl, h1, h2, h3, ?_⟩
    show A.px r c = (A.px r c + 0) % 65536
    omega
  | cons df rest ih =>
    intro n A h1 h2 h3 h4
    have hbmc := bitmap_cols df info
    have hbml : (create_image (fill_lat df info.dateStart info.dateEnd
        info.dateInterval) info).data.length =
        (create_image (fill_lat df info.dateStart info.dateEnd
          info.dateInterval) info).rows *
        (create_image (fill_lat df info.dateStart info.dateEnd
          info.dateInterval) info).cols := by
      rw [create_image_data_length, create_image_rows, create_image_cols]
    obtain ⟨A', hA'eq, hA'r, hA'c, hA'len, hA'px⟩ :=
      npAdd_same A (shiftLeftU8 (create_image (fill_lat df info.dateStart
        info.dateEnd info.dateInterval) info) n)
        (by rw [h1]; rfl)
        (by show A.cols = (create_image _ info).cols; rw [h2, hbmc])
    have hstep : List.enumFrom n (df :: rest) =
        (n, df) :: List.enumFrom (n + 1) rest := rfl
    rw [hstep, List.foldl_cons]
    have hbind : (Option.bind (some A) (fun a =>
        npAdd a (shiftLeftU8 (create_image (fill_lat df info.dateStart
          info.dateEnd info.dateInterval) info) n))) = some A' := by
      show npAdd A _ = some A'
      exact hA'eq
    rw [hbind]
    have hA'px' := hA'px r c (by rw [h1]; exact hr) (by rw [h2]; exact hc)
    obtain ⟨B, hBeq, hBr, hBc, hBlen, hBpx⟩ := ih (n + 1) A'
      (by rw [hA'r, h1]) (by rw [hA'c, h2]) hA'len
      (by rw [hA'px']; omega)
    refine ⟨B, hBeq, hBr, hBc, hBlen, ?_⟩
    rw [hBpx, hA'px']
    have hsh := shiftLeftU8_px (create_image (fill_lat df info.dateStart
      info.dateEnd info.dateInterval) info) n r c hbml
      (by rw [create_image_rows]; exact hr) (by rw [hbmc]; exact hc)
    rw [hsh, List.map_cons, List.sum_cons]
    dsimp only
    omega

theorem enumFrom_map_sum (F : Nat → List AggRow → Nat) :
    ∀ (L : List (List AggRow)) (n : Nat),
    ((List.enumFrom n L).map (fun p => F p.1 p.2)).sum =
      ((List.range L.length).map (fun k => F (n + k) (L.getD k []))).sum := by
  intro L
  induction L with
  | nil => intro n; rfl
  | cons a t ih =>
    intro n
    have h1 : List.enumFrom n (a :: t) = (n, a) :: List.enumFrom (n + 1) t :=
      rfl
    rw [h1, List.map_cons, List.sum_cons, ih (n + 1)]
    rw [List.length_cons, List.range_succ_eq_map, List.map_cons,
      List.sum_cons, List.map_map]
    dsimp only
    have e0 : F (n + 0) ((a :: t).getD 0 []) = F n a := by
      rw [Nat.add_zero]
      rfl
    have e1 : (List.range t.length).map
        ((fun k => F (n + k) ((a :: t).getD k [])) ∘ Nat.succ) =
        (List.range t.length).map (fun k => F (n + 1 + k) (t.getD k [])) := by
      apply List.map_congr_left
      intro k hk
      show F (n + (k + 1)) ((a :: t).getD (k + 1) []) = F (n + 1 + k) (t.getD k [])
      rw [List.getD_cons_succ]
      congr 1
      omega
    rw [e0, e1]

theorem sum_bits_lt (f : Nat → Nat) (hf : ∀ i, f i ≤ 1) :
    ∀ m, (((List.range m).map (fun i => f i * 2 ^ i)).sum) < 2 ^ m := by
  intro m
  induction m with
  | zero => simp
  | succ k ih =>
    rw [List.range_succ, List.map_append, List.sum_append]
    have h1 : (([k] : List Nat).map (fun i => f i * 2 ^ i)).sum = f k * 2 ^ k := by
      simp
    rw [h1]
    have h2 : f k * 2 ^ k ≤ 2 ^ k := by
      have := hf k
      calc f k * 2 ^ k ≤ 1 * 2 ^ k := Nat.mul_le_mul_right _ this
      _ = 2 ^ k := by ring
    have h3 : 2 ^ (k + 1) = 2 ^ k + 2 ^ k := by ring
    omega

theorem sum_bits_testBit (f : Nat → Nat) (hf : ∀ i, f i ≤ 1) :
    ∀ m j, Nat.testBit (((List.range m).map (fun i => f i * 2 ^ i)).sum) j =
      (decide (j < m) && decide (f j = 1)) := by
  intro m
  induction m with
  | zero =>
    intro j
    simp
  | succ k ih =>
    intro j
    rw [List.range_succ, List.map_append, List.sum_append]
    have h1 : (([k] : List Nat).map (fun i => f i * 2 ^ i)).sum = f k * 2 ^ k := by
      simp
    rw [h1]
    have hb := sum_bits_lt f hf k
    rw [Nat.add_comm, Nat.mul_comm (f k) (2 ^ k),
      Nat.testBit_mul_pow_two_add (f k) hb j]
    by_cases hjk : j < k
    · rw [if_pos hjk, ih j]
      have e1 : decide (j < k) = true := decide_eq_true hjk
      have e2 : decide (j < k + 1) = true := decide_eq_true (by omega)
      rw [e1, e2]
    · rw [if_neg hjk]
      by_cases hjk2 : j = k
      · subst hjk2
        rw [Nat.sub_self]
        have e2 : decide (j < j + 1) = true := decide_eq_true (by omega)
        rw [e2]
        rcases Nat.le_one_iff_eq_zero_or_eq_one.mp (hf j) with h0 | h1
        · rw [h0]
          simp
        · rw [h1]
          simp
      · have hjk3 : k < j := by omega
        have hlt : f k < 2 ^ (j - k) := by
          have := hf k
          have : (2 : Nat) ^ 1 ≤ 2 ^ (j - k) :=
            Nat.pow_le_pow_right (by omega) (by omega)
          omega
        rw [Nat.testBit_lt_two_pow hlt]
        have e2 : decide (j < k + 1) = false := decide_eq_false (by omega)
        rw [e2]
        simp

theorem foldr_lor_shift (l : List Nat) (b : Nat) :
    l.foldr Nat.lor b = Nat.lor (l.foldr Nat.lor 0) b := by
  induction l with
  | nil => exact (Nat.zero_or b).symm
  | cons a t ih =>
    rw [List.foldr_cons, List.foldr_cons, ih]
    exact (Nat.lor_assoc a _ b).symm

theorem foldr_lor_testBit (f : Nat → Nat) :
    ∀ m j, Nat.testBit (((List.range m).map (fun i =>
        if 0 < f i then 2 ^ i else 0)).foldr Nat.lor 0) j =
      (decide (j < m) && decide (0 < f j)) := by
  intro m
  induction m with
  | zero =>
    intro j
    simp
  | succ k ih =>
    intro j
    rw [List.range_succ, List.map_append, List.foldr_append]
    have h1 : (([k] : List Nat).map (fun i => if 0 < f i then 2 ^ i
        else 0)).foldr Nat.lor 0 = (if 0 < f k then 2 ^ k else 0) := by
      simp only [List.map_cons, List.map_nil, List.foldr_cons,
        List.foldr_nil]
      exact Nat.or_zero _
    have htb : ∀ (x y : Nat) (i : Nat),
        (Nat.lor x y).testBit i = (x.testBit i || y.testBit i) :=
      fun x y i => Nat.testBit_or x y i
    rw [h1, foldr_lor_shift, htb, ih j]
    by_cases hfk : 0 < f k
    · rw [if_pos hfk]
      rw [Nat.testBit_two_pow]
      by_cases hjk : j = k
      · subst hjk
        have e1 : decide (j < j + 1) = true := decide_eq_true (by omega)
        have e2 : decide (j = j) = true := decide_eq_true rfl
        rw [e1, e2, decide_eq_true hfk]
        simp
      · have e2 : decide (k = j) = false := decide_eq_false (fun h => hjk h.symm)
        rw [e2]
        by_cases hjk2 : j < k
        · rw [decide_eq_true hjk2, decide_eq_true (show j < k + 1 by omega)]
          simp
        · rw [decide_eq_false hjk2, decide_eq_false (show ¬j < k + 1 by omega)]
          simp
    · rw [if_neg hfk]
      rw [Nat.zero_testBit]
      have e3 : decide (0 < f k) = false := decide_eq_false hfk
      by_cases hjk2 : j < k
      · rw [decide_eq_true hjk2, decide_eq_true (show j < k + 1 by omega)]
        simp
      · by_cases hjk : j = k
        · subst hjk
          rw [decide_eq_false hjk2, decide_eq_true (show j < j + 1 by omega),
            e3]
          simp
        · rw [decide_eq_false hjk2, decide_eq_false (show ¬j < k + 1 by omega)]
          simp

theorem sum_bits_eq_foldr_lor (f : Nat → Nat) (hf : ∀ i, f i ≤ 1) (m : Nat) :
    ((List.range m).map (fun i => f i * 2 ^ i)).sum =
      ((List.range m).map (fun i => if 0 < f i then 2 ^ i else 0)).foldr
        Nat.lor 0 := by
  apply Nat.eq_of_testBit_eq
  intro j
  rw [sum_bits_testBit f hf m j, foldr_lor_testBit f m j]
  have := hf j
  by_cases h1 : f j = 1
  · rw [decide_eq_true h1, decide_eq_true (show 0 < f j by omega)]
  · rw [decide_eq_false h1, decide_eq_false (show ¬0 < f j by omega)]

theorem fill_lat_length (df : List AggRow) (info : ButterflyInfo) :
    (fill_lat df info.dateStart info.dateEnd info.dateInterval).length =
      calc_date_size info := by
  unfold fill_lat calc_date_size
  rw [List.length_map]

theorem enum_sum_shifted (info : ButterflyInfo) (r c : Nat) :
    ∀ (L : List (List AggRow)) (n : Nat),
    ((List.enumFrom n L).map (fun p =>
      (create_image (fill_lat p.2 info.dateStart info.dateEnd
        info.dateInterval) info).px r c * 2 ^ p.1 % 256)).sum =
    ((List.range L.length).map (fun k =>
      (create_image (fill_lat (L.getD k []) info.dateStart info.dateEnd
        info.dateInterval) info).px r c * 2 ^ (n + k) % 256)).sum :=
  fun L n => enumFrom_map_sum (fun i df =>
    (create_image (fill_lat df info.dateStart info.dateEnd
      info.dateInterval) info).px r c * 2 ^ i % 256) L n

/-- Claim C1 (amended to lists of at most 8 source tables): for every ordered
list of at most 8 source tables rasterized against one shared grid, the
composite image pixel at (r,c) equals the bitwise OR across sources of the
source's presence bit shifted left by its list position: a cell covered only
by source 0 has value 1, only by source 1 has value 2, by both 3, by neither
0.  (Beyond 8 sources the `uint8` shift of the 8-bit bitmap wraps and the
formula fails — see the counterexample.) -/
theorem c1_create_merged_image (dfl : List (List AggRow))
    (info : ButterflyInfo) (hn : dfl.length ≤ 8) (r c : Nat)
    (hr : r < latSizeNat info) (hc : c < calc_date_size info) :
    ∃ img, create_merged_image dfl info = some img ∧
      img.px r c = ((List.range dfl.length).map (fun i =>
        if 0 < (create_image (fill_lat (dfl.getD i []) info.dateStart
            info.dateEnd info.dateInterval) info).px r c
        then 2 ^ i else 0)).foldr Nat.lor 0 := by
  obtain ⟨B, hBeq, hBr, hBc, hBlen, hBpx⟩ := merged_fold info r c hr hc dfl 0
    (zerosImg (latSizeNat info) (calc_date_size info)) rfl rfl
    (by
      show (List.replicate _ 0).length = _
      rw [List.length_replicate]
      rfl)
    (by rw [zerosImg_px _ _ r c hr hc]; omega)
  refine ⟨B, hBeq, ?_⟩
  rw [hBpx, zerosImg_px _ _ r c hr hc, enum_sum_shifted info r c dfl 0]
  have hble : ∀ i : Nat, (create_image (fill_lat (dfl.getD i [])
      info.dateStart info.dateEnd info.dateInterval) info).px r c ≤ 1 :=
    fun i => create_image_px_le_one _ info hr
      (by rw [fill_lat_length]; exact hc)
  have hterm : (List.range dfl.length).map (fun k =>
      (create_image (fill_lat (dfl.getD k []) info.dateStart info.dateEnd
        info.dateInterval) info).px r c * 2 ^ (0 + k) % 256) =
      (List.range dfl.length).map (fun k =>
      (create_image (fill_lat (dfl.getD k []) info.dateStart info.dateEnd
        info.dateInterval) info).px r c * 2 ^ k) := by
    apply List.map_congr_left
    intro k hk
    rw [List.mem_range] at hk
    rw [Nat.zero_add]
    apply Nat.mod_eq_of_lt
    have h1 := hble k
    have h2 : (2 : Nat) ^ k ≤ 2 ^ 7 := Nat.pow_le_pow_right (by omega)
      (by omega)
    have h3 : (create_image (fill_lat (dfl.getD k []) info.dateStart
        info.dateEnd info.dateInterval) info).px r c * 2 ^ k ≤ 1 * 2 ^ k :=
      Nat.mul_le_mul_right _ h1
    have h4 : (2 : Nat) ^ 7 = 128 := by norm_num
    omega
  rw [hterm]
  have hlt : ((List.range dfl.length).map (fun k =>
      (create_image (fill_lat (dfl.getD k []) info.dateStart info.dateEnd
        info.dateInterval) info).px r c * 2 ^ k)).sum < 2 ^ dfl.length :=
    sum_bits_lt _ hble dfl.length
  have h28 : (2 : Nat) ^ dfl.length ≤ 2 ^ 8 := Nat.pow_le_pow_right
    (by omega) hn
  have heq : ((List.range dfl.length).map (fun k =>
      (create_image (fill_lat (dfl.getD k []) info.dateStart info.dateEnd
        info.dateInterval) info).px r c * 2 ^ k)).sum =
      ((List.range dfl.length).map (fun i =>
        if 0 < (create_image (fill_lat (dfl.getD i []) info.dateStart
          info.dateEnd info.dateInterval) info).px r c
        then 2 ^ i else 0)).foldr Nat.lor 0 :=
    sum_bits_eq_foldr_lor _ hble dfl.length
  have h88 : (2 : Nat) ^ 8 = 256 := by norm_num
  rw [Nat.zero_add, Nat.mod_eq_of_lt (by omega)]
  exact heq

/-- Claim C1 counterexample: nine identical sources, each present at the
single cell of a 1×1 grid.  The claim's OR formula predicts pixel value
`2^9 - 1 = 511`, but the ninth source's 8-bit shift wraps to zero before
widening and the code produces 255. -/
theorem c1_counterexample :
    create_merged_image (List.replicate 9 [⟨⟨2020, 1, 1⟩, [0], [0]⟩])
        ⟨0, 0, ⟨2020, 1, 1⟩, ⟨2020, 1, 1⟩, ⟨0, 0, 1⟩⟩ =
      some ⟨1, 1, [255]⟩ ∧
    ((List.range 9).map (fun i =>
      if 0 < (create_image (fill_lat ((List.replicate 9
          ([⟨⟨2020, 1, 1⟩, [0], [0]⟩] : List AggRow)).getD i [])
          ⟨2020, 1, 1⟩ ⟨2020, 1, 1⟩ ⟨0, 0, 1⟩)
          ⟨0, 0, ⟨2020, 1, 1⟩, ⟨2020, 1, 1⟩, ⟨0, 0, 1⟩⟩).px 0 0
      then 2 ^ i else 0)).foldr Nat.lor 0 = 511 ∧
    (255 : Nat) ≠ 511 := by
  decide

/-- Claim C1 witness: instantiation at a concrete one-source composite. -/
theorem c1_create_merged_image_witness :
    ∃ img, create_merged_image [[⟨⟨2020, 2, 1⟩, [0], [0]⟩]]
        ⟨0, 0, ⟨2020, 2, 1⟩, ⟨2020, 2, 1⟩, ⟨0, 0, 1⟩⟩ = some img ∧
      img.px 0 0 = ((List.range ([[(⟨⟨2020, 2, 1⟩, [0], [0]⟩ : AggRow)]].length)).map
        (fun i => if 0 < (create_image (fill_lat
            ([[(⟨⟨2020, 2, 1⟩, [0], [0]⟩ : AggRow)]].getD i [])
            (ButterflyInfo.mk 0 0 ⟨2020, 2, 1⟩ ⟨2020, 2, 1⟩ ⟨0, 0, 1⟩).dateStart
            (ButterflyInfo.mk 0 0 ⟨2020, 2, 1⟩ ⟨2020, 2, 1⟩ ⟨0, 0, 1⟩).dateEnd
            (ButterflyInfo.mk 0 0 ⟨2020, 2, 1⟩ ⟨2020, 2, 1⟩ ⟨0, 0, 1⟩).dateInterval)
            ⟨0, 0, ⟨2020, 2, 1⟩, ⟨2020, 2, 1⟩, ⟨0, 0, 1⟩⟩).px 0 0
          then 2 ^ i else 0)).foldr Nat.lor 0 :=
  c1_create_merged_image [[⟨⟨2020, 2, 1⟩, [0], [0]⟩]]
    ⟨0, 0, ⟨2020, 2, 1⟩, ⟨2020, 2, 1⟩, ⟨0, 0, 1⟩⟩ (by decide) 0 0
    (by decide) (by decide)

theorem sum_bits_lt8 (f : Nat → Nat) (hf : ∀ i, f i ≤ 1)
    (hz : ∀ i, 8 ≤ i → f i = 0) :
    ∀ m, (((List.range m).map (fun i => f i * 2 ^ i)).sum) < 256 := by
  intro m
  induction m with
  | zero => simp
  | succ k ih =>
    rw [List.range_succ, List.map_append, List.sum_append]
    have h1 : (([k] : List Nat).map (fun i => f i * 2 ^ i)).sum =
        f k * 2 ^ k := by
      simp
    rw [h1]
    by_cases hk : 8 ≤ k
    · rw [hz k hk, Nat.zero_mul]
      omega
    · have hb := sum_bits_lt f hf k
      have h2 : (2 : Nat) ^ k ≤ 2 ^ 7 := Nat.pow_le_pow_right (by omega)
        (by omega)
      have h3 : f k * 2 ^ k ≤ 1 * 2 ^ k := Nat.mul_le_mul_right _ (hf k)
      have h4 : (2 : Nat) ^ 7 = 128 := by norm_num
      have h5 : (2 : Nat) ^ k ≤ 2 ^ 8 := Nat.pow_le_pow_right (by omega)
        (by omega)
      have h6 : (2 : Nat) ^ 8 = 256 := by norm_num
      omega

/-- Claim C8 (amended): the 16-bit composite holds exactly the first eight
sources: for a source index `i ≤ 7`, bit `i` of the composite pixel is set
exactly when source `i` is present at that cell; every bit at position 8 or
above is always clear, because a source bitmap is 8-bit and its left shift
wraps modulo 2^8 before it is widened to 16 bits — sources with index 8..15
are silently lost, not preserved as the claim states. -/
theorem c8_create_merged_image (dfl : List (List AggRow))
    (info : ButterflyInfo) (r c : Nat)
    (hr : r < latSizeNat info) (hc : c < calc_date_size info) :
    ∃ img, create_merged_image dfl info = some img ∧
      (∀ i, i < dfl.length → i ≤ 7 →
        (Nat.testBit (img.px r c) i ↔
          0 < (create_image (fill_lat (dfl.getD i []) info.dateStart
            info.dateEnd info.dateInterval) info).px r c)) ∧
      (∀ k, 8 ≤ k → Nat.testBit (img.px r c) k = false) := by
  obtain ⟨B, hBeq, hBr, hBc, hBlen, hBpx⟩ := merged_fold info r c hr hc dfl 0
    (zerosImg (latSizeNat info) (calc_date_size info)) rfl rfl
    (by
      show (List.replicate _ 0).length = _
      rw [List.length_replicate]
      rfl)
    (by rw [zerosImg_px _ _ r c hr hc]; omega)
  have hble : ∀ i : Nat, (create_image (fill_lat (dfl.getD i [])
      info.dateStart info.dateEnd info.dateInterval) info).px r c ≤ 1 :=
    fun i => create_image_px_le_one _ info hr
      (by rw [fill_lat_length]; exact hc)
  have hterm : (List.range dfl.length).map (fun k =>
      (create_image (fill_lat (dfl.getD k []) info.dateStart info.dateEnd
        info.dateInterval) info).px r c * 2 ^ (0 + k) % 256) =
      (List.range dfl.length).map (fun k =>
      (if k ≤ 7 then (create_image (fill_lat (dfl.getD k []) info.dateStart
        info.dateEnd info.dateInterval) info).px r c else 0) * 2 ^ k) := by
    apply List.map_congr_left
    intro k hk
    rw [Nat.zero_add]
    by_cases hk7 : k ≤ 7
    · rw [if_pos hk7]
      apply Nat.mod_eq_of_lt
      have h1 := hble k
      have h2 : (2 : Nat) ^ k ≤ 2 ^ 7 := Nat.pow_le_pow_right (by omega) hk7
      have h3 : (create_image (fill_lat (dfl.getD k []) info.dateStart
          info.dateEnd info.dateInterval) info).px r c * 2 ^ k ≤ 1 * 2 ^ k :=
        Nat.mul_le_mul_right _ h1
      have h4 : (2 : Nat) ^ 7 = 128 := by norm_num
      omega
    · rw [if_neg hk7, Nat.zero_mul]
      have h2k : (2 : Nat) ^ k = 256 * 2 ^ (k - 8) := by
        rw [show (256 : Nat) = 2 ^ 8 from by norm_num, ← pow_add]
        congr 1
        omega
      rw [h2k]
      have hmul : (create_image (fill_lat (dfl.getD k []) info.dateStart
          info.dateEnd info.dateInterval) info).px r c *
          (256 * 2 ^ (k - 8)) = 256 * ((create_image (fill_lat (dfl.getD k [])
          info.dateStart info.dateEnd info.dateInterval) info).px r c *
          2 ^ (k - 8)) := by
        ring
      rw [hmul, Nat.mul_mod_right]
  have hg : ∀ i : Nat, (if i ≤ 7 then (create_image (fill_lat (dfl.getD i [])
      info.dateStart info.dateEnd info.dateInterval) info).px r c else 0)
      ≤ 1 := by
    intro i
    by_cases h : i ≤ 7
    · rw [if_pos h]
      exact hble i
    · rw [if_neg h]
      omega
  have hz : ∀ i : Nat, 8 ≤ i → (if i ≤ 7 then (create_image (fill_lat
      (dfl.getD i []) info.dateStart info.dateEnd info.dateInterval)
      info).px r c else 0) = 0 :=
    fun i hi => if_neg (by omega)
  have hlt8 : ((List.range dfl.length).map (fun k =>
      (if k ≤ 7 then (create_image (fill_lat (dfl.getD k []) info.dateStart
        info.dateEnd info.dateInterval) info).px r c else 0) * 2 ^ k)).sum
      < 256 := sum_bits_lt8 _ hg hz dfl.length
  have hpxsum : B.px r c = ((List.range dfl.length).map (fun k =>
      (if k ≤ 7 then (create_image (fill_lat (dfl.getD k []) info.dateStart
        info.dateEnd info.dateInterval) info).px r c else 0) * 2 ^ k)).sum := by
    rw [hBpx, zerosImg_px _ _ r c hr hc, enum_sum_shifted info r c dfl 0,
      hterm, Nat.zero_add, Nat.mod_eq_of_lt (by omega)]
  have htb : ∀ j : Nat, Nat.testBit (((List.range dfl.length).map (fun k =>
      (if k ≤ 7 then (create_image (fill_lat (dfl.getD k []) info.dateStart
        info.dateEnd info.dateInterval) info).px r c else 0) * 2 ^ k)).sum) j
      = (decide (j < dfl.length) && decide ((if j ≤ 7 then (create_image
        (fill_lat (dfl.getD j []) info.dateStart info.dateEnd
        info.dateInterval) info).px r c else 0) = 1)) :=
    sum_bits_testBit _ hg dfl.length
  refine ⟨B, hBeq, ?_, ?_⟩
  · intro i hi hi7
    rw [hpxsum, htb i, decide_eq_true hi, if_pos hi7]
    simp only [Bool.true_and, decide_eq_true_eq]
    have := hble i
    omega
  · intro k hk8
    rw [hpxsum, htb k, if_neg (show ¬k ≤ 7 by omega)]
    simp

/-- Claim C8 witness: instantiation at a concrete one-source composite. -/
theorem c8_create_merged_image_witness :
    ∃ img, create_merged_image [[⟨⟨2020, 2, 1⟩, [0], [0]⟩]]
        ⟨0, 0, ⟨2020, 2, 1⟩, ⟨2020, 2, 1⟩, ⟨0, 0, 1⟩⟩ = some img ∧
      (∀ i, i < [[(⟨⟨2020, 2, 1⟩, [0], [0]⟩ : AggRow)]].length → i ≤ 7 →
        (Nat.testBit (img.px 0 0) i ↔
          0 < (create_image (fill_lat
            ([[(⟨⟨2020, 2, 1⟩, [0], [0]⟩ : AggRow)]].getD i [])
            (ButterflyInfo.mk 0 0 ⟨2020, 2, 1⟩ ⟨2020, 2, 1⟩ ⟨0, 0, 1⟩).dateStart
            (ButterflyInfo.mk 0 0 ⟨2020, 2, 1⟩ ⟨2020, 2, 1⟩ ⟨0, 0, 1⟩).dateEnd
            (ButterflyInfo.mk 0 0 ⟨2020, 2, 1⟩ ⟨2020, 2, 1⟩ ⟨0, 0, 1⟩).dateInterval)
            ⟨0, 0, ⟨2020, 2, 1⟩, ⟨2020, 2, 1⟩, ⟨0, 0, 1⟩⟩).px 0 0)) ∧
      (∀ k, 8 ≤ k → Nat.testBit (img.px 0 0) k = false) :=
  c8_create_merged_image [[⟨⟨2020, 2, 1⟩, [0], [0]⟩]]
    ⟨0, 0, ⟨2020, 2, 1⟩, ⟨2020, 2, 1⟩, ⟨0, 0, 1⟩⟩ 0 0 (by decide) (by decide)

/-- Claim C8 counterexample: nine sources of which only the ninth (index 8)
is present at the single cell of a 1×1 grid: the claim predicts composite
bit 8 set (value 256), but the 8-bit shift wraps to zero before widening and
the composite pixel is 0 — the ninth source's contribution is silently
lost. -/
theorem c8_counterexample :
    create_merged_image (List.replicate 8 ([] : List AggRow) ++
        [[⟨⟨2020, 1, 1⟩, [0], [0]⟩]])
        ⟨0, 0, ⟨2020, 1, 1⟩, ⟨2020, 1, 1⟩, ⟨0, 0, 1⟩⟩ =
      some ⟨1, 1, [0]⟩ ∧
    (create_image (fill_lat [⟨⟨2020, 1, 1⟩, [0], [0]⟩] ⟨2020, 1, 1⟩
        ⟨2020, 1, 1⟩ ⟨0, 0, 1⟩)
        ⟨0, 0, ⟨2020, 1, 1⟩, ⟨2020, 1, 1⟩, ⟨0, 0, 1⟩⟩).px 0 0 = 1 ∧
    Nat.testBit 0 8 = false := by
  decide

theorem create_image_px_le_one_all (df : List AggRow) (info : ButterflyInfo)
    (r c : Nat) : (create_image df info).px r c ≤ 1 := by
  show ((List.range (latSizeNat info)).flatMap _).getD (r * df.length + c) 0 ≤ 1
  by_cases h : r * df.length + c <
      ((List.range (latSizeNat info)).flatMap (fun rr =>
        df.map (fun row => if rowCovered info rr row then 1 else 0))).length
  · rw [List.getD_eq_getElem _ _ h]
    have hmem := List.getElem_mem h
    rw [List.mem_flatMap] at hmem
    obtain ⟨rr, _, hm⟩ := hmem
    rw [List.mem_map] at hm
    obtain ⟨row, _, hval⟩ := hm
    rw [← hval]
    split <;> omega
  · rw [List.getD_eq_default _ _ (by omega)]
    omega

/-- Claim C2 (amended): the rasterized single-source bitmap of a filled
table has shape `(calc_lat_size, calc_date_size)`; every cell holds 0 or 1
(a sighting sets cells to 1, it does not increment a count); the data row
for latitude degree `d` is row `2*(lat_max - d)` and holds 1 in a period's
column exactly when a sighting pair `(lo, hi)` of that period satisfies
`lo ≤ d ≤ hi`; and — contrary to the claim's always-zero separator rows —
the odd row directly below degree `d+1`'s data row holds 1 exactly when a
single sighting spans both `d` and `d+1` (`lo ≤ d` and `d+1 ≤ hi`), because
a sighting fills the contiguous row slice `2*(lat_max-hi) … 2*(lat_max-lo)`
including its interior separator rows. -/
theorem c2_create_image (df : List AggRow) (info : ButterflyInfo)
    (c : Nat) (hc : c < df.length) (d : Int)
    (hd1 : info.latMin ≤ d) (hd2 : d ≤ info.latMax)
    (hv : info.latMin ≤ info.latMax) :
    (create_image (fill_lat df info.dateStart info.dateEnd
      info.dateInterval) info).rows = latSizeNat info ∧
    (create_image (fill_lat df info.dateStart info.dateEnd
      info.dateInterval) info).cols = calc_date_size info ∧
    (∀ r c', (create_image df info).px r c' ≤ 1) ∧
    ((create_image df info).px (2 * (info.latMax - d)).toNat c = 1 ↔
      ∃ p ∈ (df.getD c ⟨⟨0, 0, 0⟩, [], []⟩).min.zip
        (df.getD c ⟨⟨0, 0, 0⟩, [], []⟩).max, p.1 ≤ d ∧ d ≤ p.2) ∧
    (d < info.latMax →
      ((create_image df info).px (2 * (info.latMax - d) - 1).toNat c = 1 ↔
        ∃ p ∈ (df.getD c ⟨⟨0, 0, 0⟩, [], []⟩).min.zip
          (df.getD c ⟨⟨0, 0, 0⟩, [], []⟩).max, p.1 ≤ d ∧ d + 1 ≤ p.2)) := by
  have hone : ∀ (b : Bool), ((if b then (1 : Nat) else 0) = 1 ↔ b = true) := by
    intro b
    cases b <;> simp
  refine ⟨rfl, bitmap_cols df info, fun r c' =>
    create_image_px_le_one_all df info r c', ?_, ?_⟩
  · have hr : (2 * (info.latMax - d)).toNat < latSizeNat info := by
      unfold latSizeNat calc_lat_size
      omega
    rw [create_image_px df info hr hc, hone]
    unfold rowCovered
    rw [List.any_eq_true]
    have hcast : ((2 * (info.latMax - d)).toNat : Int) =
        2 * (info.latMax - d) := Int.toNat_of_nonneg (by omega)
    constructor
    · rintro ⟨p, hp, hcond⟩
      rw [Bool.and_eq_true, decide_eq_true_eq, decide_eq_true_eq, hcast]
        at hcond
      exact ⟨p, hp, by omega⟩
    · rintro ⟨p, hp, hcond⟩
      refine ⟨p, hp, ?_⟩
      rw [Bool.and_eq_true, decide_eq_true_eq, decide_eq_true_eq, hcast]
      omega
  · intro hdlt
    have hr : (2 * (info.latMax - d) - 1).toNat < latSizeNat info := by
      unfold latSizeNat calc_lat_size
      omega
    rw [create_image_px df info hr hc, hone]
    unfold rowCovered
    rw [List.any_eq_true]
    have hcast : ((2 * (info.latMax - d) - 1).toNat : Int) =
        2 * (info.latMax - d) - 1 := Int.toNat_of_nonneg (by omega)
    constructor
    · rintro ⟨p, hp, hcond⟩
      rw [Bool.and_eq_true, decide_eq_true_eq, decide_eq_true_eq, hcast]
        at hcond
      exact ⟨p, hp, by omega⟩
    · rintro ⟨p, hp, hcond⟩
      refine ⟨p, hp, ?_⟩
      rw [Bool.and_eq_true, decide_eq_true_eq, decide_eq_true_eq, hcast]
      omega

/-- Claim C2 witness: instantiation at a concrete filled table. -/
theorem c2_create_image_witness :
    ((create_image [⟨⟨2020, 1, 1⟩, [0], [1]⟩]
        ⟨0, 1, ⟨2020, 1, 1⟩, ⟨2020, 1, 1⟩, ⟨0, 0, 1⟩⟩).px
        (2 * ((1 : Int) - 0)).toNat 0 = 1 ↔
      ∃ p ∈ (([⟨⟨2020, 1, 1⟩, [0], [1]⟩] :
          List AggRow).getD 0 ⟨⟨0, 0, 0⟩, [], []⟩).min.zip
        (([⟨⟨2020, 1, 1⟩, [0], [1]⟩] :
          List AggRow).getD 0 ⟨⟨0, 0, 0⟩, [], []⟩).max,
        p.1 ≤ (0 : Int) ∧ (0 : Int) ≤ p.2) :=
  (c2_create_image [⟨⟨2020, 1, 1⟩, [0], [1]⟩]
    ⟨0, 1, ⟨2020, 1, 1⟩, ⟨2020, 1, 1⟩, ⟨0, 0, 1⟩⟩ 0 (by decide) 0
    (by decide) (by decide) (by decide)).2.2.2.1

/-- Claim C2 counterexample: one period with sightings (0,1) and (0,0) on a
grid with latitudes 0..1.  The code's rasterizer (validated against the
repository's merge-test fixtures) produces column [1,1,1]: the odd
separator row 1 is filled (the claim demands it always be 0) and the
degree-0 data row holds 1, not the claimed per-degree increment count 2.
`claimRasterize` is the rasterizer exactly as the claim words it. -/
theorem c2_counterexample :
    create_image [⟨⟨2020, 1, 1⟩, [0, 0], [1, 0]⟩]
        ⟨0, 1, ⟨2020, 1, 1⟩, ⟨2020, 1, 1⟩, ⟨0, 0, 1⟩⟩ ≠
      claimRasterize [⟨⟨2020, 1, 1⟩, [0, 0], [1, 0]⟩]
        ⟨0, 1, ⟨2020, 1, 1⟩, ⟨2020, 1, 1⟩, ⟨0, 0, 1⟩⟩ ∧
    (create_image [⟨⟨2020, 1, 1⟩, [0, 0], [1, 0]⟩]
        ⟨0, 1, ⟨2020, 1, 1⟩, ⟨2020, 1, 1⟩, ⟨0, 0, 1⟩⟩).px 1 0 = 1 ∧
    (claimRasterize [⟨⟨2020, 1, 1⟩, [0, 0], [1, 0]⟩]
        ⟨0, 1, ⟨2020, 1, 1⟩, ⟨2020, 1, 1⟩, ⟨0, 0, 1⟩⟩).px 1 0 = 0 ∧
    (create_image [⟨⟨2020, 1, 1⟩, [0, 0], [1, 0]⟩]
        ⟨0, 1, ⟨2020, 1, 1⟩, ⟨2020, 1, 1⟩, ⟨0, 0, 1⟩⟩).px 2 0 = 1 ∧
    (claimRasterize [⟨⟨2020, 1, 1⟩, [0, 0], [1, 0]⟩]
        ⟨0, 1, ⟨2020, 1, 1⟩, ⟨2020, 1, 1⟩, ⟨0, 0, 1⟩⟩).px 2 0 = 2 := by
  decide

theorem charVal_dChar {d : Nat} (h : d < 10) : charVal (dChar d) = d := by
  interval_cases d <;> decide

theorem isDigit_dChar {d : Nat} (h : d < 10) : (dChar d).isDigit = true := by
  interval_cases d <;> decide

theorem foldl_digit_list : ∀ (L : List Nat), (∀ x ∈ L, x < 10) → ∀ a : Nat,
    ((L.map dChar).reverse).foldl (fun acc c => 10 * acc + charVal c) a =
      a * 10 ^ L.length + Nat.ofDigits 10 L := by
  intro L
  induction L with
  | nil =>
    intro _ a
    show a = a * 10 ^ 0 + Nat.ofDigits 10 []
    rw [Nat.ofDigits_nil, pow_zero]
    omega
  | cons x T ih =>
    intro hlt a
    rw [List.map_cons, List.reverse_cons, List.foldl_append,
      ih (fun y hy => hlt y (List.mem_cons_of_mem x hy)) a]
    show 10 * (a * 10 ^ T.length + Nat.ofDigits 10 T) + charVal (dChar x) =
      a * 10 ^ (x :: T).length + Nat.ofDigits 10 (x :: T)
    rw [charVal_dChar (hlt x (List.mem_cons_self x T)), Nat.ofDigits_cons,
      List.length_cons, pow_succ]
    push_cast
    ring

theorem parseNatChars_digitChars (n : Nat) :
    parseNatChars (digitChars n) = n := by
  unfold parseNatChars digitChars
  rw [foldl_digit_list (Nat.digits 10 n)
    (fun x hx => Nat.digits_lt_base (by norm_num) hx) 0]
  rw [Nat.ofDigits_digits]
  omega

theorem foldl_zeros (k : Nat) :
    (List.replicate k '0').foldl (fun a c => 10 * a + charVal c) 0 = 0 := by
  induction k with
  | zero => rfl
  | succ m ih =>
    rw [List.replicate_succ, List.foldl_cons]
    have h0 : (10 * 0 + charVal '0') = 0 := by decide
    rw [h0, ih]

theorem parseNatChars_padZeros (w n : Nat) :
    parseNatChars (padZeros w (digitChars n)) = n := by
  unfold padZeros parseNatChars
  rw [List.foldl_append, foldl_zeros]
  exact parseNatChars_digitChars n

theorem digits_len_le_of_lt {m k : Nat} (h : m < 10 ^ k) :
    (Nat.digits 10 m).length ≤ k := by
  by_cases hm : m = 0
  · subst hm
    simp
  · by_contra hlen
    have h1 : 10 ^ (Nat.digits 10 m).length ≤ 10 * m :=
      Nat.base_pow_length_digits_le 10 m (by norm_num) hm
    have h2 : (10 : Nat) ^ (k + 1) ≤ 10 ^ (Nat.digits 10 m).length :=
      Nat.pow_le_pow_right (by norm_num) (by omega)
    have h3 : (10 : Nat) ^ (k + 1) = 10 ^ k * 10 := pow_succ 10 k
    omega

theorem digitChars_length (n : Nat) :
    (digitChars n).length = (Nat.digits 10 n).length := by
  unfold digitChars
  rw [List.length_reverse, List.length_map]

theorem padZeros_length {w : Nat} {s : List Char} (h : s.length ≤ w) :
    (padZeros w s).length = w := by
  unfold padZeros
  rw [List.length_append, List.length_replicate]
  omega

theorem padZeros_all_digits {w : Nat} {n : Nat} :
    ((padZeros w (digitChars n)).all Char.isDigit) = true := by
  unfold padZeros
  rw [List.all_append, Bool.and_eq_true]
  constructor
  · rw [List.all_eq_true]
    intro c hcmem
    rw [List.mem_replicate] at hcmem
    rw [hcmem.2]
    decide
  · rw [List.all_eq_true]
    unfold digitChars
    intro c hcmem
    rw [List.mem_reverse, List.mem_map] at hcmem
    obtain ⟨x, hx, rfl⟩ := hcmem
    exact isDigit_dChar (Nat.digits_lt_base (by norm_num) hx)

theorem no_dash_of_all_digits {s : List Char}
    (h : s.all Char.isDigit = true) : '-' ∉ s := by
  intro hc
  rw [List.all_eq_true] at h
  have := h _ hc
  simp at this

theorem splitDash_cons (c : Char) (t : List Char) :
    splitDash (c :: t) = if c = '-' then [] :: splitDash t
      else match splitDash t with
        | [] => [[c]]
        | h :: r => (c :: h) :: r := rfl

theorem splitDash_ne_nil : ∀ (s : List Char), splitDash s ≠ [] := by
  intro s
  induction s with
  | nil => simp [splitDash]
  | cons c t ih =>
    rw [splitDash_cons]
    split
    · simp
    · split
      · simp
      · simp

theorem splitDash_append (A : List Char) (hA : '-' ∉ A) (rest : List Char) :
    splitDash (A ++ '-' :: rest) = A :: splitDash rest := by
  induction A with
  | nil =>
    rw [List.nil_append, splitDash_cons, if_pos rfl]
  | cons c T ih =>
    have hc : c ≠ '-' := fun h => hA (h ▸ List.mem_cons_self c T)
    have hT : '-' ∉ T := fun h => hA (List.mem_cons_of_mem c h)
    rw [List.cons_append, splitDash_cons, if_neg hc, ih hT]

theorem splitDash_no_dash : ∀ (A : List Char), '-' ∉ A → splitDash A = [A] := by
  intro A
  induction A with
  | nil => intro _; rfl
  | cons c T ih =>
    intro hA
    have hc : c ≠ '-' := fun h => hA (h ▸ List.mem_cons_self c T)
    have hT : '-' ∉ T := fun h => hA (List.mem_cons_of_mem c h)
    rw [splitDash_cons, if_neg hc, ih hT]

theorem parseDateIso_dateIso (d : Date) (hv : d.Valid) (hy : d.year ≤ 9999) :
    parseDateIso (dateIso d) = some d := by
  obtain ⟨h1, h2, h3, h4⟩ := hv
  have hylen : (digitChars d.year).length ≤ 4 := by
    rw [digitChars_length]
    exact digits_len_le_of_lt (by norm_num; omega)
  have hmlen : (digitChars d.month).length ≤ 2 := by
    rw [digitChars_length]
    exact digits_len_le_of_lt (by
      have : d.month < 100 := by omega
      norm_num
      omega)
  have hdlen : (digitChars d.day).length ≤ 2 := by
    rw [digitChars_length]
    have hd31 : d.day ≤ 31 := le_trans h4 daysInMonth_le_31
    exact digits_len_le_of_lt (by norm_num; omega)
  have hY := padZeros_all_digits (w := 4) (n := d.year)
  have hM := padZeros_all_digits (w := 2) (n := d.month)
  have hD := padZeros_all_digits (w := 2) (n := d.day)
  unfold parseDateIso dateIso
  rw [splitDash_append _ (no_dash_of_all_digits hY),
    splitDash_append _ (no_dash_of_all_digits hM),
    splitDash_no_dash _ (no_dash_of_all_digits hD)]
  dsimp only
  rw [if_pos]
  · rw [parseNatChars_padZeros, parseNatChars_padZeros, parseNatChars_padZeros]
  · refine ⟨padZeros_length hylen, padZeros_length hmlen,
      padZeros_length hdlen, ?_, ?_⟩
    · rw [List.all_append, List.all_append, hY, hM, hD]
      rfl
    · rw [parseNatChars_padZeros, parseNatChars_padZeros,
        parseNatChars_padZeros]
      exact ⟨h1, h2, h3, h4⟩

theorem takeWhile_digits_append {A : List Char}
    (hA : A.all Char.isDigit = true) {c : Char} (hc : c.isDigit = false)
    (rest : List Char) :
    (A ++ c :: rest).takeWhile Char.isDigit = A ∧
      (A ++ c :: rest).dropWhile Char.isDigit = c :: rest := by
  induction A with
  | nil =>
    rw [List.nil_append]
    constructor
    · rw [List.takeWhile_cons, hc]
      rfl
    · rw [List.dropWhile_cons, hc]
      rfl
  | cons a T ih =>
    rw [List.all_cons, Bool.and_eq_true] at hA
    obtain ⟨ha, hT⟩ := hA
    obtain ⟨ih1, ih2⟩ := ih hT
    rw [List.cons_append]
    constructor
    · rw [List.takeWhile_cons, ha, ih1]
      rfl
    · rw [List.dropWhile_cons, ha, ih2]
      rfl

theorem digitChars_all (n : Nat) : (digitChars n).all Char.isDigit = true := by
  unfold digitChars
  rw [List.all_eq_true]
  intro c hcmem
  rw [List.mem_reverse, List.mem_map] at hcmem
  obtain ⟨x, hx, rfl⟩ := hcmem
  exact isDigit_dChar (Nat.digits_lt_base (by norm_num) hx)

theorem digitChars_ne_nil {n : Nat} (hn : n ≠ 0) : digitChars n ≠ [] := by
  unfold digitChars
  intro h
  rw [List.reverse_eq_nil_iff, List.map_eq_nil_iff] at h
  exact (Nat.digits_ne_nil_iff_ne_zero.mpr hn) h

theorem parseComp_nil (marker : Char) : parseComp marker [] = (none, []) :=
  rfl

theorem parseComp_hit {n : Nat} (hn : n ≠ 0) {marker : Char}
    (hm : marker.isDigit = false) (rest : List Char) :
    parseComp marker (digitChars n ++ marker :: rest) = (some n, rest) := by
  obtain ⟨htw, hdw⟩ := takeWhile_digits_append (digitChars_all n) hm rest
  unfold parseComp
  rw [hdw, htw]
  dsimp only
  rw [if_pos ⟨rfl, digitChars_ne_nil hn⟩, parseNatChars_digitChars]

theorem parseComp_miss {k : Nat} (hk : k ≠ 0) {marker marker' : Char}
    (hm' : marker'.isDigit = false) (hne : marker' ≠ marker)
    (tail : List Char) :
    parseComp marker (digitChars k ++ marker' :: tail) =
      (none, digitChars k ++ marker' :: tail) := by
  obtain ⟨htw, hdw⟩ := takeWhile_digits_append (digitChars_all k) hm' tail
  unfold parseComp
  rw [hdw]
  dsimp only
  rw [if_neg]
  intro hcond
  exact hne hcond.1

theorem parseDeltaIso_deltaIso (δ : DateDelta) (hδ : δ.Valid) :
    parseDeltaIso (deltaIso δ) = some δ := by
  obtain ⟨y, m, d⟩ := δ
  unfold DateDelta.Valid at hδ
  simp only at hδ
  unfold deltaIso parseDeltaIso
  dsimp only
  rw [if_pos rfl]
  by_cases hy : y = 0 <;> by_cases hm : m = 0 <;> by_cases hd : d = 0
  · exact absurd ⟨hy, hm, hd⟩ hδ
  · subst hy
    subst hm
    rw [if_pos rfl, if_pos rfl, if_neg hd]
    simp only [List.nil_append, List.append_nil, List.append_assoc,
      List.cons_append]
    rw [parseComp_miss hd (by decide) (by decide),
      parseComp_miss hd (by decide) (by decide),
      parseComp_hit hd (by decide)]
    rw [if_pos (by exact ⟨rfl, by simp, by simp [hd]⟩)]
    rfl
  · subst hy
    subst hd
    rw [if_pos rfl, if_neg hm, if_pos rfl]
    simp only [List.nil_append, List.append_nil, List.append_assoc,
      List.cons_append]
    rw [parseComp_miss hm (by decide) (by decide),
      parseComp_hit hm (by decide), parseComp_nil]
    rw [if_pos (by exact ⟨rfl, by simp, by simp [hm]⟩)]
    rfl
  · subst hy
    rw [if_pos rfl, if_neg hm, if_neg hd]
    simp only [List.nil_append, List.append_nil, List.append_assoc,
      List.cons_append]
    rw [parseComp_miss hm (by decide) (by decide),
      parseComp_hit hm (by decide), parseComp_hit hd (by decide)]
    rw [if_pos (by exact ⟨rfl, by simp, by simp [hm]⟩)]
    rfl
  · subst hm
    subst hd
    rw [if_neg hy, if_pos rfl, if_pos rfl]
    simp only [List.nil_append, List.append_nil, List.append_assoc,
      List.cons_append]
    rw [parseComp_hit hy (by decide), parseComp_nil, parseComp_nil]
    rw [if_pos (by exact ⟨rfl, by simp, by simp [hy]⟩)]
    rfl
  · subst hm
    rw [if_neg hy, if_pos rfl, if_neg hd]
    simp only [List.nil_append, List.append_nil, List.append_assoc,
      List.cons_append]
    rw [parseComp_hit hy (by decide),
      parseComp_miss hd (by decide) (by decide),
      parseComp_hit hd (by decide)]
    rw [if_pos (by exact ⟨rfl, by simp, by simp [hy]⟩)]
    rfl
  · subst hd
    rw [if_neg hy, if_neg hm, if_pos rfl]
    simp only [List.nil_append, List.append_nil, List.append_assoc,
      List.cons_append]
    rw [parseComp_hit hy (by decide), parseComp_hit hm (by decide),
      parseComp_nil]
    rw [if_pos (by exact ⟨rfl, by simp, by simp [hy]⟩)]
    rfl
  · rw [if_neg hy, if_neg hm, if_neg hd]
    simp only [List.nil_append, List.append_nil, List.append_assoc,
      List.cons_append]
    rw [parseComp_hit hy (by decide), parseComp_hit hm (by decide),
      parseComp_hit hd (by decide)]
    rw [if_pos (by exact ⟨rfl, by simp, by simp [hy]⟩)]
    rfl

/-- C6: the claimed round-trip `from_dict (to_dict G) = G` fails on the
source as tested: `to_dict` stores raw `date` / `DateDelta` objects (per
`test_butterfly_info`), while `from_dict` requires ISO text for those
fields (per `test_butterfly_info_from_dict`, where a non-string raises
`TypeError`). For the valid grid below, `to_dict` yields a `date` object in
`date_start` and `from_dict` of that dict fails instead of returning the
grid. -/
theorem c6_counterexample :
    (ButterflyInfo.to_dict
        ⟨-50, 50, ⟨2020, 2, 2⟩, ⟨2020, 5, 5⟩, ⟨0, 0, 1⟩⟩).date_start
        = PyVal.date ⟨2020, 2, 2⟩ ∧
      ButterflyInfo.from_dict
        (ButterflyInfo.to_dict
          ⟨-50, 50, ⟨2020, 2, 2⟩, ⟨2020, 5, 5⟩, ⟨0, 0, 1⟩⟩) = none ∧
      (ButterflyInfo.mk (-50) 50 ⟨2020, 2, 2⟩ ⟨2020, 5, 5⟩ ⟨0, 0, 1⟩).Valid :=
  ⟨rfl, rfl, by decide⟩

/-- C6 (amended): the round-trip does hold through the textual form that
`to_json` writes: for every valid grid whose years fit in four digits,
`from_dict` of the dict holding the ISO date texts and the ISO duration
text returns exactly the grid. -/
theorem c6_from_dict_roundtrip (info : ButterflyInfo) (hv : info.Valid)
    (h1 : info.dateStart.year ≤ 9999) (h2 : info.dateEnd.year ≤ 9999) :
    ButterflyInfo.from_dict
      ⟨.int info.latMin, .int info.latMax, .str (dateIso info.dateStart),
       .str (dateIso info.dateEnd), .str (deltaIso info.dateInterval)⟩
      = some info := by
  obtain ⟨lo, hi, ds, de, δ⟩ := info
  obtain ⟨hlat, hdate, hdsv, hdev, hδv⟩ := hv
  simp only at h1 h2
  unfold ButterflyInfo.from_dict
  dsimp only
  rw [parseDateIso_dateIso ds hdsv h1, parseDateIso_dateIso de hdev h2,
    parseDeltaIso_deltaIso δ hδv]
  dsimp only
  rw [if_pos ⟨hlat, hdate⟩]

/-- Witness for the amended C6 round-trip on a concrete grid. -/
theorem c6_from_dict_roundtrip_witness :
    ButterflyInfo.from_dict
      ⟨.int (-50), .int 50, .str (dateIso ⟨2020, 2, 2⟩),
       .str (dateIso ⟨2020, 5, 5⟩), .str (deltaIso ⟨1, 2, 3⟩)⟩
      = some ⟨-50, 50, ⟨2020, 2, 2⟩, ⟨2020, 5, 5⟩, ⟨1, 2, 3⟩⟩ :=
  c6_from_dict_roundtrip
    ⟨-50, 50, ⟨2020, 2, 2⟩, ⟨2020, 5, 5⟩, ⟨1, 2, 3⟩⟩
    (by decide) (by decide) (by decide)
